import Mathlib

/-!
Verification development for the YotsuiroHook toolkit: a shallow embedding of
the GYU image codec (`GYU_Decode.py`, `GYU_Encode.py`) and the RLD scenario
codec (`RLD_Decryptor.py`), with proofs about the embedded operations.

Bytes are modelled as `Nat` (with explicit `< 256` bounds where they matter),
32-bit machine words as `Nat` with explicit `% 2^32` masking, byte buffers as
`List Nat`, and decoded CP932 text as `String`.
-/

set_option maxRecDepth 10000

/-! ### MT19937 engine (custom seeding), from `GYU_Decode.py` lines 17-73.
`GYU_Encode.py` lines 17-63 contain a textually identical copy of the same
class; the definitions below embed both. -/

/-- One step of the seeding schedule (`MersenneTwister.seed`): produces the
list of the next `n` state words starting from LCG state `a`.  The Python
loop `for _ in range(104): for _ in range(6): ...` executes its body exactly
`104 * 6 = 624` times (the `idx >= 624` guard never fires mid-block), so the
whole schedule is `seedFill a 624`. -/
def seedFill (a : Nat) : Nat → List Nat
  | 0 => []
  | n + 1 =>
    let a1 := (69069 * a + 1) % 2 ^ 32
    let v := (a &&& 0xFFFF0000) ||| (a1 >>> 16)
    v :: seedFill ((69069 * a1 + 1) % 2 ^ 32) n

/-- One in-place update of `mt[i]` during `_twist`, reading the neighbour
`mt[(i+1) % 624]` and the source word `mt[src]` from the current state
(mirroring Python's sequential in-place mutation). -/
def twistAt (mt : List Nat) (i src : Nat) : List Nat :=
  let y := (mt.getD i 0 &&& 0x80000000) ||| (mt.getD ((i + 1) % 624) 0 &&& 0x7FFFFFFF)
  mt.set i ((mt.getD src 0) ^^^ (y >>> 1) ^^^ (if y % 2 = 1 then 0x9908B0DF else 0))

/-- Python `MersenneTwister._twist`: the three sequential reload loops. -/
def mtTwist (mt : List Nat) : List Nat :=
  let m1 := (List.range 227).foldl (fun m i => twistAt m i (i + 397)) mt
  let m2 := (List.range' 227 396).foldl (fun m i => twistAt m i (i - 227)) m1
  twistAt m2 623 396

/-- The tempering applied by `MersenneTwister.next` before returning a draw. -/
def mtTemper (y0 : Nat) : Nat :=
  let y1 := y0 ^^^ (y0 >>> 11)
  let y2 := y1 ^^^ ((y1 <<< 7) &&& 0x9D2C5680)
  let y3 := y2 ^^^ ((y2 <<< 15) &&& 0xEFC60000)
  y3 ^^^ (y3 >>> 18)

/-- The `MersenneTwister` object state: the 624-word array and the cursor. -/
structure MTState where
  mt : List Nat
  index : Nat
  deriving Repr, DecidableEq

/-- Python `MersenneTwister.seed`: fill the state with the custom schedule, then
perform one `_twist` (which sets the cursor to 0). -/
def MTState.seeded (s : Nat) : MTState :=
  ⟨mtTwist (seedFill s 624), 0⟩

/-- Python `MersenneTwister.next`: reload when the cursor reaches 624, then temper
and return the word under the cursor, advancing the cursor. -/
def MTState.next (m : MTState) : Nat × MTState :=
  let m' := if m.index ≥ 624 then ⟨mtTwist m.mt, 0⟩ else m
  (mtTemper (m'.mt.getD m'.index 0) &&& 0xFFFFFFFF, ⟨m'.mt, m'.index + 1⟩)

/-- Python `MersenneTwister.rand`: next draw modulo `maxVal`; `0` (with no draw
consumed) when `maxVal` is 0, mirroring the `max_val <= 0` guard. -/
def MTState.rand (m : MTState) (maxVal : Nat) : Nat × MTState :=
  if maxVal = 0 then (0, m)
  else
    let (v, m') := m.next
    (v % maxVal, m')

/-- The list of the next `n` raw draws (`next()`) from state `m`. -/
def MTState.draws (m : MTState) : Nat → List Nat
  | 0 => []
  | n + 1 =>
    let (v, m') := m.next
    v :: m'.draws n

/-! ### Key table generation, from `RLD_Decryptor.py` lines 94-131.
`generate_key_table` textually inlines the same seeding schedule and reload
as `MersenneTwister.seed`/`_twist` (the helper defs above), then tempers the
first 256 state words and XORs each with the seed. -/

/-- Python `generate_key_table`: 256-entry key table from a seed. -/
def generate_key_table (seed : Nat) : List Nat :=
  let mt := mtTwist (seedFill seed 624)
  (List.range 256).map fun i => (mtTemper (mt.getD i 0) ^^^ seed) &&& 0xFFFFFFFF

/-- Modelled from the spec's words, for the C5 refinement comparison:
"draw 256 words from the seeded engine, XOR each with `seed`" (mod `2^32`). -/
def keyTableSpec (seed : Nat) : List Nat :=
  ((MTState.seeded seed).draws 256).map fun v => (v ^^^ seed) % 2 ^ 32

/-! ### Byte shuffling (`scramble` / `unscramble` / `shuffle_compressed` /
`unshuffle_decompressed`), from `GYU_Encode.py` lines 66-78 and
`GYU_Decode.py` lines 76-108 and 354-363. -/

/-- The 10 index pairs drawn via `rng.rand(size)` twice per pair.  In the
forward-order Python routines the swaps are interleaved with the draws, but
swapping the data never feeds back into the RNG, so drawing all pairs first
is equivalent; `unshuffle_decompressed` collects the pairs first anyway. -/
def genPairs (m : MTState) (size : Nat) : Nat → List (Nat × Nat)
  | 0 => []
  | n + 1 =>
    let (i, m1) := m.rand size
    let (j, m2) := m1.rand size
    (i, j) :: genPairs m2 size n

/-- One guarded swap `data[idx1], data[idx2] = data[idx2], data[idx1]`,
skipped unless both indices are in range. -/
def swapPair (d : List Nat) (p : Nat × Nat) : List Nat :=
  if p.1 < d.length ∧ p.2 < d.length then
    (d.set p.1 (d.getD p.2 0)).set p.2 (d.getD p.1 0)
  else d

/-- Apply a list of swaps left to right. -/
def applySwaps (d : List Nat) (ps : List (Nat × Nat)) : List Nat :=
  ps.foldl swapPair d

/-- Python `GYU_Decode.shuffle_compressed`: 10 pairs swapped in forward order. -/
def shuffle_compressed (data : List Nat) (key size : Nat) : List Nat :=
  applySwaps data (genPairs (MTState.seeded key) size 10)

/-- Python `GYU_Decode.unshuffle_decompressed`: the same 10 pairs swapped in
reverse order (`for idx1, idx2 in reversed(pairs)`). -/
def unshuffle_decompressed (data : List Nat) (key size : Nat) : List Nat :=
  applySwaps data (genPairs (MTState.seeded key) size 10).reverse

/-- Python `GYU_Decode.unscramble`: identical to `shuffle_compressed`. -/
def unscramble (data : List Nat) (seed size : Nat) : List Nat :=
  applySwaps data (genPairs (MTState.seeded seed) size 10)

/-- Python `GYU_Encode.scramble`: forward order, with `size = len(data)`. -/
def scramble (data : List Nat) (seed : Nat) : List Nat :=
  applySwaps data (genPairs (MTState.seeded seed) data.length 10)

/-- Index-disjointness of two swap pairs. -/
def pairDisjoint (p q : Nat × Nat) : Prop :=
  p.1 ≠ q.1 ∧ p.1 ≠ q.2 ∧ p.2 ≠ q.1 ∧ p.2 ≠ q.2

instance (p q : Nat × Nat) : Decidable (pairDisjoint p q) := by
  unfold pairDisjoint; infer_instance

/-- Pairwise index-disjointness of the whole swap list. -/
def pairsDisjoint (ps : List (Nat × Nat)) : Prop :=
  List.Pairwise pairDisjoint ps

instance (ps : List (Nat × Nat)) : Decidable (pairsDisjoint ps) := by
  unfold pairsDisjoint; infer_instance

/-! ### Concrete evaluation of the RNG for the seed `0x12345678`, used by the
counterexamples and witnesses below.  The 624-word seeding schedule is checked
once against a literal, and only the first 20 state words (the at most 20
draws any shuffle consumes) are then evaluated through the reload. -/

/-- The literal value of `seedFill 0x12345678 624`. -/
def sfLitS : List Nat := [305435333, 3816737763, 782522320, 1716470444, 1240465360, 4203429287, 3531287833, 2014504482, 2985042685, 1615925470, 3656638764, 1928136653, 1540627150, 4214293906, 2528781659, 1110957752, 3367877440, 1372984494, 246296113, 4098903688, 2661770573, 2629497718, 3377840886, 2754110210, 234999404, 127862540, 1298283821, 2461678468, 3877877774, 588826603, 1312126999, 1888183945, 1607767840, 2248185197, 2304356399, 3610160423, 2294492046, 2667575623, 1409634989, 4072754835, 1930430396, 3054197513, 3634281734, 1533979545, 96602125, 501359521, 70446185, 518873638, 2203105887, 2509459671, 603725122, 4194293953, 3206264203, 3656677584, 853826232, 3253942795, 49340647, 1730887054, 3607035440, 4263764037, 2760420293, 1781018732, 252255946, 2977312969, 1258960116, 3794216357, 2414932193, 1407051661, 3834012220, 4063295436, 3528070542, 4225290917, 1266345956, 1654242130, 3487357476, 3086024127, 2622439469, 1384145413, 1897097138, 406605223, 987402966, 424988302, 2861425286, 3890187203, 2279443608, 1481332720, 1250916775, 377938326, 1183131306, 1005305102, 1989043800, 3522020416, 2985057853, 3984885795, 3634944922, 3478736890, 1117248511, 884138570, 2099963304, 3307017116, 603491225, 1222563574, 1611282810, 337071129, 1508582195, 3535472505, 2859267141, 2704445439, 2520423149, 499895935, 2686470904, 3739544313, 3189412965, 2044384146, 1025518014, 112224591, 531542582, 3430878870, 2199176065, 2191725411, 1468194677, 1386232652, 1993347427, 2262325556, 3859777332, 2448276688, 3453108805, 3673615837, 1966849025, 2053304605, 1271339586, 3551400725, 3453505382, 3083400327, 3490005554, 2084590766, 2099435881, 859034942, 319850282, 4025922584, 709144588, 3296933583, 337054201, 3819258845, 2614283980, 333735332, 913727146, 1597059877, 1833872931, 2874202753, 255106055, 2802338098, 1956973319, 940191239, 3800390418, 1436799203, 3618676331, 4230183987, 3511133836, 2769024050, 3518416060, 1878472670, 3062291056, 3897591736, 686232931, 330264125, 3036312438, 890324518, 1407314504, 1891596896, 1954991763, 1022983115, 1328404299, 1265051829, 263837814, 1463755283, 583012810, 70535812, 2974788874, 3122883333, 394053664, 696170866, 3786352377, 3832921282, 2628741410, 954845952, 2221694757, 923802891, 3717323682, 2431005708, 2244353070, 3193507001, 113812974, 2452708429, 942223857, 734188356, 1004864848, 4048757209, 1638584582, 4283120191, 1021769102, 941624480, 4186949183, 3774789848, 3149146217, 2000220656, 2512824878, 712052571, 1638264096, 663226353, 2288713886, 2688963246, 2230913004, 1002989865, 2906998806, 1538025428, 2388621700, 1643907063, 3880253787, 3822972780, 242169496, 1962218010, 1309767405, 2006950193, 2201014104, 500220969, 191818887, 2261129082, 3448833773, 2775887130, 3906281121, 1538132666, 1458723580, 4128661950, 2364221936, 4106550527, 3868883752, 3434520641, 1761489634, 234640756, 658550926, 446817197, 1451820325, 1515842529, 3699717449, 2532271973, 3837109023, 3983213608, 3363208174, 2147785388, 1440007541, 3570121160, 1091397391, 2366768158, 1290160775, 3785349980, 1974431930, 261330228, 722834928, 2719626778, 1689108985, 1154575810, 490463240, 2331660630, 2160409169, 3613396858, 3646518628, 1359649279, 111109958, 2426470760, 203482706, 1923153439, 39021524, 977265526, 1986668128, 4045338718, 81844213, 2947805672, 3133184980, 980618109, 2310303775, 532805855, 3671334707, 1117367773, 204137669, 2113648600, 1694886589, 3440878840, 3439688147, 607892780, 1373665773, 3867070692, 1207410229, 2754314639, 2442877179, 2381211605, 1495167823, 3367988115, 1234953308, 2391908761, 310592644, 3350766373, 3253598270, 2300367644, 1100803761, 2736901389, 47091727, 760478180, 2764650417, 3134391920, 572937717, 2743383957, 3503887833, 2381535311, 1090921045, 638106988, 3330664315, 2893060871, 959474510, 3402147781, 938580581, 3632843217, 4203586621, 2092190103, 2117124960, 1480771138, 2562100538, 625698805, 1052681652, 1995672522, 141521559, 102294925, 3238406817, 918344503, 2368035942, 1110531627, 4091332838, 839394865, 3598003697, 2545496629, 587357244, 2903532222, 3450254657, 1230832174, 1554377946, 3612978877, 321694362, 936942133, 2262787824, 1026808684, 740663292, 728845701, 624181806, 1765423333, 1608376482, 1299890677, 3457620284, 3050756507, 1162625156, 3520146295, 1348809025, 1320961503, 9821142, 3496081307, 2296901983, 1651351391, 814270089, 1319102731, 3889318451, 2209625252, 2350820295, 2031067919, 2789805400, 992642193, 805395834, 213886217, 2883007714, 3367285225, 2617529283, 4039751159, 603396837, 352478919, 1621433477, 4292132854, 3280904430, 3541051430, 2089859802, 26287035, 3194898311, 3517323609, 1780348570, 3560983579, 1825781174, 2094673810, 3704593369, 3324651906, 2699505788, 2408240477, 785754728, 522616189, 2889908824, 4108713508, 2123068753, 3658944051, 358535875, 3655444906, 2079830621, 2389318117, 4247842227, 4005877650, 3863968144, 2308653684, 881818394, 3634293464, 3111138474, 414181593, 29337191, 3536551253, 191266470, 28965036, 2515777026, 2155062077, 2582180668, 760685472, 851940050, 3993804450, 131853920, 2150927619, 4291182521, 3268739825, 3402447811, 3834045761, 2414100756, 2723825777, 3363419727, 2207249760, 386135102, 3187003337, 2756237229, 790534787, 1332795147, 2521388410, 3167500225, 4211945834, 258326351, 3972519263, 3645242410, 113471982, 2391212631, 3844857394, 2266904517, 1991359111, 1533512813, 1459442951, 661600809, 2648165319, 16967766, 1326688464, 2893729579, 1463743454, 1547908821, 3238819290, 120614489, 2407442967, 2709460520, 1758763341, 1152080512, 4265122392, 301365640, 3693458606, 1538568489, 261759139, 1633120427, 3422691679, 2856086037, 4259329177, 3409633092, 1983665179, 585451207, 449823988, 3634701439, 1190113404, 712618489, 1228571403, 3582571143, 2852441207, 628068131, 2793414224, 4131689986, 212804572, 3043817977, 1678438355, 757132690, 250624985, 2797467115, 3503232446, 2949665108, 3843241590, 2380271014, 2463235801, 754461282, 3912422937, 351986320, 278881797, 2980379219, 1555099905, 4183862350, 181714371, 1053659832, 1505645773, 3104876607, 1704266668, 249183391, 4107868660, 4030167296, 571749369, 2333855762, 2387044172, 1722512872, 2282861819, 4048403350, 1402971526, 3446729355, 2136396449, 2837183406, 4047512238, 741754425, 423178743, 1234764376, 1943479725, 4275518335, 1243407523, 1321832077, 1507619273, 47959971, 3538805865, 2132308931, 3574807074, 3035978282, 1521024678, 14700908, 1007519029, 2122740819, 3084070870, 535181942, 2879848538, 2467813531, 1778347792, 3269151947, 3632743239, 2111910457, 1129113991, 2430351569, 279217037, 1598545057, 1105440265, 3337926890, 1824372761, 3663303427, 2575026306, 3180919027, 836709554, 2991656907, 3973565816, 505998790, 1659012479, 404200481, 3074741646, 3363019962, 2179674752, 2814283625, 3860785411, 1748063008, 2179552018, 369540802, 2722814770, 3129527750, 3893954926, 2379996297, 1237030418, 2206814325, 495205928, 3184773077, 2565854645, 867413365, 4034843570, 2511457274, 74535883, 1030569222, 1177045465, 3018313737, 1112957727, 445564134, 4226666821, 2198697548, 63175446, 30822352, 4177972987, 124595148, 3731108661, 1282733305, 1878511580, 1551443917, 1710501530, 2340523923, 1343351845, 3796982606, 1975089024, 1300325965, 3874593519, 457265292, 2852637373, 2481439439, 2986276271, 960428670, 163271493, 4170217792, 1609395125, 1533965400, 3753858471, 2202296257, 37676463, 2074063114, 3297397645]

/-- The first 20 draws of the engine seeded with `0x12345678`. -/
def drawsLitS : List Nat := [2023340405, 3170930224, 36199578, 3208921614, 721608690, 2079055410, 3338721709, 3843344425, 30427157, 2529461810, 2222575047, 2670237762, 2102026499, 1043596212, 559391720, 4103718824, 1309142322, 973422238, 3842880551, 1150684591]

/-- Pair up consecutive draws, reduced modulo `size`. -/
def pairListOf : List Nat → Nat → List (Nat × Nat)
  | a :: b :: rest, size => (a % size, b % size) :: pairListOf rest size
  | _, _ => []

/-! ### LZSS codec (engine variant): decoder from `GYU_Decode.py` lines
111-157, encoder from `GYU_Encode.py` lines 81-144.  The ring window is a
4096-byte zero-initialised list with write cursor starting at 4078. -/

/-- The back-reference copy loop of the decoder: `length` steps of reading
`window[(offset + i) & 0xFFF]`, appending to the output and mirroring into
the window at the advancing cursor. -/
def copyRef (window : List Nat) (winPos : Nat) (output : List Nat)
    (offset : Nat) : Nat → List Nat × Nat × List Nat
  | 0 => (window, winPos, output)
  | n + 1 =>
    let byte := window.getD (offset % 4096) 0
    copyRef (window.set winPos byte) ((winPos + 1) % 4096) (output ++ [byte])
      (offset + 1) n

/-- The decoder loop of `decompress_lzss`.  `flags` is the 16-bit flag
register (pre-OR'd with `0xFF00` on refill); `outputSize = 0` encodes
Python's falsy `None`/`0` (no early stop, no truncation).  The loop consumes
at least one input byte per iteration, so the structural `fuel` (started at
`data.length + 1` by the wrapper) never reaches 0 before the `pos` guard
ends the loop; the fuel branch returns the output unchanged, like the
natural loop exit. -/
def decompLoop (data : List Nat) (outputSize : Nat) :
    Nat → Nat → Nat → List Nat → Nat → List Nat → List Nat
  | 0, _, _, _, _, output => output
  | fuel + 1, pos, flags, window, winPos, output =>
    if pos < data.length then
      let flags1 := flags >>> 1
      -- refill: the guard `if pos >= len(data): break` inside the refill
      -- branch cannot fire, since the loop guard has just passed
      let flags2 := if flags1 &&& 0x100 = 0 then data.getD pos 0 ||| 0xFF00 else flags1
      let pos2 := if flags1 &&& 0x100 = 0 then pos + 1 else pos
      if pos2 ≥ data.length then output
      else if flags2 &&& 1 = 1 then
        -- literal byte
        let byte := data.getD pos2 0
        decompLoop data outputSize fuel (pos2 + 1) flags2 (window.set winPos byte)
          ((winPos + 1) % 4096) (output ++ [byte])
      else if pos2 + 1 ≥ data.length then output
      else
        -- back-reference
        let b1 := data.getD pos2 0
        let b2 := data.getD (pos2 + 1) 0
        let offset := ((b2 &&& 0xF0) <<< 4) ||| b1
        let len := (b2 &&& 0x0F) + 3
        let wwo := copyRef window winPos output offset len
        if outputSize ≠ 0 ∧ wwo.2.2.length ≥ outputSize then wwo.2.2
        else decompLoop data outputSize fuel (pos2 + 2) flags2 wwo.1 wwo.2.1 wwo.2.2
    else output

/-- Python `decompress_lzss`: run the loop on a fresh window, then truncate to
`output_size` when one was given. -/
def decompress_lzss (data : List Nat) (outputSize : Nat) : List Nat :=
  let output :=
    decompLoop data outputSize (data.length + 1) 0 0 (List.replicate 4096 0) 4078 []
  if outputSize ≠ 0 then output.take outputSize else output

/-- Length of a candidate match: how many bytes starting `back` behind the
cursor (read from the stale window) agree with the input at `pos`, capped at
`MAX_MATCH = 18`.  `winPos + 4096 - back` is Python's `win_pos - back`
before the `& 0xFFF`; the structural counter starts at 18, matching the
`l < 18` guard, so it never runs out first. -/
def matchLenAt (window data : List Nat) (winPos back pos : Nat) :
    Nat → Nat → Nat
  | 0, l => l
  | rem + 1, l =>
    if l < 18 ∧ pos + l < data.length ∧
        window.getD ((winPos + 4096 - back + l) % 4096) 0 = data.getD (pos + l) 0 then
      matchLenAt window data winPos back pos rem (l + 1)
    else l

/-- Greedy best-match search over `back ∈ [1, min(pos + 1, 4096))`, keeping
the first match of each strictly greater length (`match_len > best_len`),
subject to `MIN_MATCH = 3`. -/
def findBest (window data : List Nat) (winPos pos : Nat) : Nat × Nat :=
  (List.range' 1 (min (pos + 1) 4096 - 1)).foldl
    (fun best back =>
      let ml := matchLenAt window data winPos back pos 18 0
      if 3 ≤ ml ∧ best.1 < ml then (ml, (winPos + 4096 - back) % 4096) else best)
    (0, 0)

/-- Mirror a run of bytes into the window at the advancing cursor. -/
def windowWrite (window : List Nat) (winPos : Nat) : List Nat → List Nat × Nat
  | [] => (window, winPos)
  | b :: rest => windowWrite (window.set winPos b) ((winPos + 1) % 4096) rest

/-- After a token: set the next flag bit position and flush the group when
eight tokens have accumulated (`flush()` emits flag byte then pending). -/
def tokenStep (flagByte flagBit : Nat) (pending output : List Nat) :
    Nat × Nat × List Nat × List Nat :=
  if flagBit + 1 = 8 then (0, 0, [], output ++ flagByte :: pending)
  else (flagByte, flagBit + 1, pending, output)

/-- The encoder loop of `compress_lzss`.  Each iteration advances `pos` by
at least 1 (a literal) or by the match length (`≥ 3`), so the structural
`fuel` (started at `data.length + 1`) never reaches 0 before `pos` passes
the end; the fuel branch performs the same final flush as the loop exit. -/
def compLoop (data : List Nat) :
    Nat → List Nat → Nat → Nat → Nat → Nat → List Nat → List Nat → List Nat
  | 0, _, _, _, flagByte, flagBit, pending, output =>
    if 0 < flagBit then output ++ flagByte :: pending else output
  | fuel + 1, window, winPos, pos, flagByte, flagBit, pending, output =>
    if pos < data.length then
      let best := findBest window data winPos pos
      if 3 ≤ best.1 then
        -- back-reference token: two bytes, flag bit stays 0
        let pending2 := pending ++
          [best.2 % 256, ((best.2 >>> 4) &&& 0xF0) ||| ((best.1 - 3) &&& 0x0F)]
        let ww := windowWrite window winPos ((data.drop pos).take best.1)
        let st := tokenStep flagByte flagBit pending2 output
        compLoop data fuel ww.1 ww.2 (pos + best.1) st.1 st.2.1 st.2.2.1 st.2.2.2
      else
        -- literal token
        let byte := data.getD pos 0
        let st := tokenStep (flagByte ||| (1 <<< flagBit)) flagBit (pending ++ [byte]) output
        compLoop data fuel (window.set winPos byte) ((winPos + 1) % 4096) (pos + 1)
          st.1 st.2.1 st.2.2.1 st.2.2.2
    else if 0 < flagBit then output ++ flagByte :: pending else output

/-- Python `compress_lzss`: run the encoder loop on a fresh window. -/
def compress_lzss (data : List Nat) : List Nat :=
  compLoop data (data.length + 1) (List.replicate 4096 0) 4078 0 0 0 [] []

/-! ### LZSS2 / "ungyu" codec, from `GYU_Decode.py` lines 159-239: decoder
with an MSB-first bit reader stacked over whole-byte reads. -/

/-- The bit-reader state: input cursor and the pending accumulator. -/
structure Lz2State where
  pos : Nat
  savedBits : Nat
  savedCount : Nat
  deriving Repr, DecidableEq

/-- Python `get_bits`: refill one byte at a time until `savedCount ≥ bits`, then
extract the top `bits` bits.  On input exhaustion return 0, keeping the
partially refilled state.  Each refill adds 8 to `savedCount`, so a
structural fuel of `bits + 1` always suffices (callers pass it). -/
def lz2GetBits (data : List Nat) (bits : Nat) : Nat → Lz2State → Nat × Lz2State
  | 0, st => (0, st)
  | fuel + 1, st =>
    if bits > st.savedCount then
      if st.pos ≥ data.length then (0, st)
      else lz2GetBits data bits fuel
        ⟨st.pos + 1, (st.savedBits <<< 8) ||| data.getD st.pos 0, st.savedCount + 8⟩
    else
      let extra := st.savedCount - bits
      let mask := 0xFFFFFFFF <<< extra
      let val := (st.savedBits &&& mask) >>> extra
      -- Python clears the taken bits with `saved_bits &= ~mask`; as
      -- `saved_bits < 2^(32 + extra)` always holds here, this equals
      -- keeping the low `extra` bits
      (val, ⟨st.pos, st.savedBits &&& (2 ^ extra - 1), st.savedCount - bits⟩)

/-- Python `get_next_byte`: whole-byte read bypassing the bit buffer; 0 at EOF. -/
def lz2NextByte (data : List Nat) (st : Lz2State) : Nat × Lz2State :=
  if st.pos ≥ data.length then (0, st)
  else (data.getD st.pos 0, ⟨st.pos + 1, st.savedBits, st.savedCount⟩)

/-- The reference copy loop: `n` steps of appending `output[len + p]`
(or `0` when that index is out of range), stopping at `outEnd`. -/
def lz2Copy (output : List Nat) (outEnd : Nat) (p : Int) : Nat → List Nat
  | 0 => output
  | n + 1 =>
    if output.length ≥ outEnd then output
    else
      let src : Int := (output.length : Int) + p
      let b := if 0 ≤ src ∧ src < (output.length : Int) then output.getD src.toNat 0 else 0
      lz2Copy (output ++ [b]) outEnd p n

/-- The main LZSS2 loop.  Every iteration either appends at least one byte
or returns (the explicit terminator), so a structural fuel of
`outEnd + 1` never runs out before the length guard ends the loop. -/
def lz2Loop (data : List Nat) (outEnd : Nat) : Nat → Lz2State → List Nat → List Nat
  | 0, _, output => output
  | fuel + 1, st, output =>
    if output.length < outEnd then
      let r1 := lz2GetBits data 1 2 st
      if r1.1 ≠ 0 then
        -- literal
        let r2 := lz2NextByte data r1.2
        lz2Loop data outEnd fuel r2.2 (output ++ [r2.1])
      else
        let r2 := lz2GetBits data 1 2 r1.2
        if r2.1 ≠ 0 then
          -- long back-reference
          let rb1 := lz2NextByte data r2.2
          let rb2 := lz2NextByte data rb1.2
          let n0 := 0xFFFF0000 ||| (rb1.1 <<< 8) ||| rb2.1
          -- `p = (n >> 3) | 0xFFFFE000` is ≥ 2^31, so the signed conversion
          -- always subtracts 2^32
          let p : Int := (((n0 >>> 3) ||| 0xFFFFE000 : Nat) : Int) - 0x100000000
          let nlow := n0 &&& 7
          if nlow ≠ 0 then
            lz2Loop data outEnd fuel rb2.2 (lz2Copy output outEnd p (nlow + 1 + 1))
          else
            let rm := lz2NextByte data rb2.2
            if rm.1 = 0 then output
            else lz2Loop data outEnd fuel rm.2 (lz2Copy output outEnd p (rm.1 + 1))
        else
          -- short back-reference
          let rn := lz2GetBits data 2 3 r2.2
          let rp := lz2NextByte data rn.2
          let p : Int := ((rp.1 ||| 0xFFFFFF00 : Nat) : Int) - 0x100000000
          lz2Loop data outEnd fuel rp.2 (lz2Copy output outEnd p (rn.1 + 1 + 1))
    else output

/-- Python `decompress_lzss2`: first input byte is an unconditional literal, then
the bit-driven loop, then truncation to `output_size`. -/
def decompress_lzss2 (data : List Nat) (outputSize : Nat) : List Nat :=
  let r0 := lz2NextByte data ⟨0, 0, 0⟩
  (lz2Loop data outputSize (outputSize + 1) r0.2 [r0.1]).take outputSize

/-! ### GYU container, from `GYU_Decode.py` lines 260-352 (`decode_gyu`) and
`GYU_Encode.py` lines 169-367 (`png_to_gyu`). -/

/-- Little-endian 16-bit read (`struct.unpack('<H', ...)`). -/
def readU16 (l : List Nat) (off : Nat) : Nat :=
  l.getD off 0 + 256 * l.getD (off + 1) 0

/-- Little-endian 32-bit read (`struct.unpack('<I', ...)`). -/
def readU32 (l : List Nat) (off : Nat) : Nat :=
  l.getD off 0 + 2 ^ 8 * l.getD (off + 1) 0 + 2 ^ 16 * l.getD (off + 2) 0 +
    2 ^ 24 * l.getD (off + 3) 0

/-- Little-endian 16-bit bytes (`struct.pack('<H', ...)`). -/
def le16 (n : Nat) : List Nat := [n % 256, n / 256 % 256]

/-- Little-endian 32-bit bytes (`struct.pack('<I', ...)`). -/
def le32 (n : Nat) : List Nat :=
  [n % 256, n / 2 ^ 8 % 256, n / 2 ^ 16 % 256, n / 2 ^ 24 % 256]

/-- The record returned by `decode_gyu` (the Python dict).  The palette is
`none` when `pal_colors == 0`, mirroring Python's `None`. -/
structure GyuImage where
  width : Nat
  height : Nat
  bpp : Nat
  row_stride : Nat
  rgb : List Nat
  alpha : Option (List Nat)
  flags : Nat
  palette : Option (List (Nat × Nat × Nat))
  deriving Repr, DecidableEq

/-- Python `decode_gyu` on the raw file bytes; `none` models the `ValueError` on a
bad magic.  `(x + 3) - (x + 3) % 4` is Python's `(x + 3) & ~3`. -/
def decode_gyu (data : List Nat) : Option GyuImage :=
  if data.take 4 ≠ [0x47, 0x59, 0x55, 0x1A] then none
  else
    let flags := readU16 data 4
    let type_ := readU16 data 6
    let key := readU32 data 8
    let bpp := readU32 data 12
    let width := readU32 data 16
    let height := readU32 data 20
    let data_size := readU32 data 24
    let alpha_size := readU32 data 28
    let pal_colors := readU32 data 32
    let pal_size := pal_colors * 4
    let palette := if 0 < pal_colors then
        some ((List.range pal_colors).map fun i =>
          (data.getD (36 + i * 4 + 2) 0, data.getD (36 + i * 4 + 1) 0,
            data.getD (36 + i * 4) 0))
      else none
    let compressed_start := 36 + pal_size
    let compressed := (data.drop compressed_start).take data_size
    let alpha_compressed := if 0 < alpha_size then
        some ((data.drop (compressed_start + data_size)).take alpha_size)
      else none
    let bytes_per_pixel := if 8 ≤ bpp then bpp / 8 else 1
    let row_stride := (width * bytes_per_pixel + 3) - (width * bytes_per_pixel + 3) % 4
    let expected_size := row_stride * height
    let compressed2 := if key ≠ 0 then unscramble compressed key compressed.length
      else compressed
    let rgb :=
      if data_size = expected_size then compressed2
      else if type_ = 0x0800 then decompress_lzss2 (compressed2.drop 4) expected_size
      else decompress_lzss compressed2 expected_size
    let alpha := match alpha_compressed with
      | none => none
      | some ac =>
        -- the Python `if alpha_compressed:` is also false for an empty slice
        if ac.isEmpty then none
        else
          let alpha_stride := (width + 3) - (width + 3) % 4
          let alpha_expected := alpha_stride * height
          if alpha_size = alpha_expected then some ac
          else some (decompress_lzss ac alpha_expected)
    some ⟨width, height, bpp, row_stride, rgb, alpha, flags, palette⟩

/-- The encode pipeline of `png_to_gyu` after the PIL raster extraction:
inputs are the raw bottom-up padded raster `raw_data`, the palette bytes and
entry count, the key, the header geometry, and the raw alpha plane (`[]`
models "no alpha channel").  Compress with LZSS, scramble RGB and alpha with
the key, and emit header + palette + payloads. -/
def png_to_gyu (raw_data palette_data : List Nat) (pal_colors key bpp width height : Nat)
    (alpha_raw : List Nat) : List Nat :=
  let alpha_data := if alpha_raw.isEmpty then [] else compress_lzss alpha_raw
  let compressed := scramble (compress_lzss raw_data) key
  let alpha_data2 := if alpha_data.isEmpty then [] else scramble alpha_data key
  let flags := if alpha_data2.isEmpty then 0x0000 else 0x0003
  [0x47, 0x59, 0x55, 0x1A] ++ le16 flags ++ le16 0x0000 ++ le32 key ++ le32 bpp ++
    le32 width ++ le32 height ++ le32 compressed.length ++ le32 alpha_data2.length ++
    le32 pal_colors ++ palette_data ++ compressed ++ alpha_data2

/-- The header bytes emitted by `png_to_gyu` for the C1 failing input
(bpp 8, 1×1, key `0x12345678`, no palette, no alpha, 4 payload bytes). -/
def c1Hdr : List Nat :=
  [71, 89, 85, 26, 0, 0, 0, 0, 120, 86, 52, 18, 8, 0, 0, 0, 1, 0, 0, 0,
   1, 0, 0, 0, 4, 0, 0, 0, 0, 0, 0, 0, 0, 0, 0, 0]

/-! ### RLD decryption, from `RLD_Decryptor.py` lines 136-150. -/

/-- One 32-bit little-endian word XORed in place at byte offset `off`,
guarded by `if i + 4 <= len(result)` as in the source. -/
def xorWordAt (l : List Nat) (off key : Nat) : List Nat :=
  if off + 4 ≤ l.length then
    let dec := readU32 l off ^^^ key
    ((((l.set off (dec % 256)).set (off + 1) (dec / 2 ^ 8 % 256)).set
      (off + 2) (dec / 2 ^ 16 % 256)).set (off + 3) (dec / 2 ^ 24 % 256))
  else l

/-- Python `decrypt_rld`: XOR words at offsets `0x10, 0x14, …` below
`block_count = min(len, 0xFFCF)` rounded down to a multiple of 4, with
`keys[key_idx & 0xFF]`.  The Python `range(0x10, block_count, 4)` visits the
offsets `0x10 + 4 * k` for `k < (block_count - 0x10) / 4` (exact division:
both bounds are multiples of 4; empty for `block_count ≤ 0x10`); the guard
`i + 4 <= len(result)` always holds for those offsets, so `key_idx`, which
Python advances only under the guard, is always `k`. -/
def decrypt_rld (data keys : List Nat) : List Nat :=
  let bc0 := min data.length 0xFFCF
  let bc := bc0 - bc0 % 4
  (List.range ((bc - 0x10) / 4)).foldl
    (fun l k => xorWordAt l (0x10 + 4 * k) (keys.getD (k &&& 0xFF) 0)) data

/-! ### RLD command-stream parsing, from `RLD_Decryptor.py` lines 155-218. -/

/-- A parsed command (the Python dict; `type_name` is presentation only and
not modelled; strings are kept as raw bytes, the CP932 decode being a pure
presentation step). -/
structure RldCmd where
  offset : Nat
  ctype : Nat
  params : List Nat
  strings : List (List Nat)
  deriving Repr, DecidableEq

/-- Scan for the terminating NUL of `read_cstring` (fuel-driven; the fuel
`data.length` bounds the number of in-range steps). -/
def cstrEnd (data : List Nat) : Nat → Nat → Nat
  | 0, off => off
  | fuel + 1, off =>
    if off < data.length ∧ data.getD off 0 ≠ 0 then cstrEnd data fuel (off + 1)
    else off

/-- Python `read_cstring`: the bytes before the NUL (or input end) and the offset
just past the terminator. -/
def read_cstring (data : List Nat) (off : Nat) : List Nat × Nat :=
  let e := cstrEnd data data.length off
  ((data.drop off).take (e - off), e + 1)

/-- The parameter-word loop: each iteration appends a word only when
`offset + 4 <= len(data)` (otherwise the offset stays put and nothing more
is appended). -/
def readParams (data : List Nat) (off : Nat) : Nat → List Nat × Nat
  | 0 => ([], off)
  | n + 1 =>
    if off + 4 ≤ data.length then
      let r := readParams data (off + 4) n
      (readU32 data off :: r.1, r.2)
    else ([], off)

/-- The string loop: each iteration reads a C string only while
`offset < len(data)`. -/
def readStrings (data : List Nat) (off : Nat) : Nat → List (List Nat) × Nat
  | 0 => ([], off)
  | n + 1 =>
    if off < data.length then
      let s := read_cstring data off
      let r := readStrings data s.2 n
      (s.1 :: r.1, r.2)
    else ([], off)

/-- The command loop of `parse_rld`: up to `cmd_count` commands, stopping at
an unreadable header, a sanity-bound violation, or the 50000-command cap
(`done` counts commands already emitted). -/
def parseLoop (data : List Nat) : Nat → Nat → Nat → List RldCmd
  | 0, _, _ => []
  | n + 1, off, done =>
    if off + 4 > data.length then []
    else
      let header := readU32 data off
      let cmd_type := header &&& 0xFFFF
      let dword_count := (header >>> 16) &&& 0xFF
      let string_count := (header >>> 24) &&& 0x0F
      if cmd_type > 0x1000 ∨ dword_count > 50 ∨ string_count > 15 then []
      else
        let pr := readParams data (off + 4) dword_count
        let sr := readStrings data pr.2 string_count
        let cmd : RldCmd := ⟨off, cmd_type, pr.1, sr.1⟩
        if done + 1 > 50000 then [cmd]
        else cmd :: parseLoop data n sr.2 (done + 1)

/-- Python `parse_rld`: check the `?DLR` magic, read `cmd_offset`/`cmd_count`, and
run the command loop. -/
def parse_rld (data : List Nat) : List RldCmd :=
  if data.length < 16 ∨ (data.drop 1).take 3 ≠ [0x44, 0x4C, 0x52] then []
  else
    let cmd_offset := readU32 data 8
    let cmd_count := readU32 data 12
    if cmd_offset ≥ data.length then []
    else parseLoop data cmd_count cmd_offset 0

/-! ### Claim C9: parse aborts. -/

/-- A 20-byte RLD image whose single command header (at offset 16) declares
`dword_count = 2`, with no parameter bytes following. -/
def c9Data : List Nat :=
  [0, 0x44, 0x4C, 0x52, 0, 0, 0, 0, 16, 0, 0, 0, 1, 0, 0, 0, 1, 0, 2, 0]

/-! ### Text detection and MESSAGE extraction, from `RLD_Decryptor.py` lines
53-78 (filters) and 250-284 (the `0x1C` arm of `extract_translatable`).
Texts are the CP932-decoded strings, modelled as Lean `String`s. -/

/-- Python `contains_japanese`: at least one code point in the Hiragana, Katakana,
CJK, or fullwidth blocks. -/
def contains_japanese (s : String) : Bool :=
  s.data.any fun c =>
    decide ((0x3040 ≤ c.toNat ∧ c.toNat ≤ 0x309F) ∨
      (0x30A0 ≤ c.toNat ∧ c.toNat ≤ 0x30FF) ∨
      (0x4E00 ≤ c.toNat ∧ c.toNat ≤ 0x9FFF) ∨
      (0xFF00 ≤ c.toNat ∧ c.toNat ≤ 0xFFEF))

/-- Membership in the character class of the rejection regex
`^[\d,\-\.\*\s\;\:\&\|\=\<\>\[\]\(\)RQLSrqls]+$`.  Python's Unicode `\d`
and `\s` are modelled restricted to the code points reachable from CP932
decoding: ASCII and fullwidth digits, and ASCII/control whitespace plus the
ideographic space U+3000. -/
def inFilterClass (c : Char) : Bool :=
  c.isDigit || decide (0xFF10 ≤ c.toNat ∧ c.toNat ≤ 0xFF19) ||
  decide ((0x09 ≤ c.toNat ∧ c.toNat ≤ 0x0D) ∨ (0x1C ≤ c.toNat ∧ c.toNat ≤ 0x1F)) ||
  decide (c.toNat = 0x20) || decide (c.toNat = 0x3000) ||
  decide (c ∈ [',', '-', '.', '*', ';', ':', '&', '|', '=', '<', '>',
    '[', ']', '(', ')', 'R', 'Q', 'L', 'S', 'r', 'q', 'l', 's'])

/-- Python `re.search('[a-zA-Z]{3,}')`: three consecutive ASCII letters. -/
def hasThreeLetters : List Char → Bool
  | a :: b :: c :: rest =>
    (a.isAlpha && b.isAlpha && c.isAlpha) || hasThreeLetters (b :: c :: rest)
  | _ => false

/-- The `skip_starts` prefix list. -/
def skipStarts : List String :=
  ["-1,", "0,", "1,", "10,", "100,", "101,", "102,", "2000,"]

/-- Python `is_translatable_text`. -/
def is_translatable_text (s : String) : Bool :=
  if s.data.isEmpty then false
  else if s.data.length < 2 then false
  else if s.data.all inFilterClass then false
  else if skipStarts.any (fun p => p.data.isPrefixOf s.data && !contains_japanese s) then
    false
  else contains_japanese s || hasThreeLetters s.data

/-- A parsed command as seen by `extract_translatable` (decoded strings). -/
structure MsgCommand where
  ctype : Nat
  params : List Nat
  strings : List String

/-- A `MESSAGE` translation entry (the fields the `0x1C` arm fills in). -/
structure MsgEntry where
  speaker : Option String
  text : String
  deriving DecidableEq, Repr

/-- The `0x1C MESSAGE` arm of `extract_translatable`: the process-wide
`CHAR_TABLE` dict is the `table` parameter (`none` = id not registered);
`none` as a result means no entry is appended for this command. -/
def extract_translatable_message (table : Nat → Option String) (cmd : MsgCommand) :
    Option MsgEntry :=
  if cmd.ctype = 0x1C then
    if cmd.strings.isEmpty then none
    else
      let char_id := cmd.params.headD 0
      let inline_name : Option String :=
        if 2 ≤ cmd.strings.length ∧ cmd.strings.headD "" ≠ "" ∧ cmd.strings.headD "" ≠ "*"
        then some (cmd.strings.headD "") else none
      let text := cmd.strings.getLastD ""
      let speaker : Option String :=
        match inline_name with
        | some n => some n
        | none => if 3 ≤ char_id then table char_id else none
      if text ≠ "" ∧ is_translatable_text text then some ⟨speaker, text⟩ else none
  else none

/-! ### Proof development: helper lemmas and the claim theorems. -/

theorem applySwaps_nil (d : List Nat) : applySwaps d [] = d := rfl

theorem applySwaps_cons (d : List Nat) (p : Nat × Nat) (ps : List (Nat × Nat)) :
    applySwaps d (p :: ps) = applySwaps (swapPair d p) ps := rfl

theorem applySwaps_append (d : List Nat) (ps qs : List (Nat × Nat)) :
    applySwaps d (ps ++ qs) = applySwaps (applySwaps d ps) qs := by
  simp [applySwaps, List.foldl_append]

/-! ### Basic lemmas about the MT state and draws. -/

theorem seedFill_length (a n : Nat) : (seedFill a n).length = n := by
  induction n generalizing a with
  | zero => rfl
  | succ n ih => simp [seedFill, ih]

theorem twistAt_length (mt : List Nat) (i src : Nat) :
    (twistAt mt i src).length = mt.length := by
  simp [twistAt]

theorem foldl_twistAt_length (f : Nat → Nat) (is : List Nat) (mt : List Nat) :
    (is.foldl (fun m i => twistAt m i (f i)) mt).length = mt.length := by
  induction is generalizing mt with
  | nil => rfl
  | cons i is ih => simp [List.foldl_cons, ih, twistAt_length]

theorem mtTwist_length (mt : List Nat) : (mtTwist mt).length = mt.length := by
  rw [mtTwist]
  rw [twistAt_length, foldl_twistAt_length (fun i => i - 227),
    foldl_twistAt_length (fun i => i + 397)]

/-- A twist step at index `i` does not move any other entry. -/
theorem twistAt_getD_ne (mt : List Nat) (i src j : Nat) (h : j ≠ i) :
    (twistAt mt i src).getD j 0 = mt.getD j 0 := by
  simp only [twistAt, List.getD_eq_getElem?_getD]
  rw [List.getElem?_set_ne (fun he => h he.symm)]

/-- Folding twist steps over indices all different from `j` leaves entry `j`
unchanged. -/
theorem foldl_twistAt_getD (f : Nat → Nat) (is : List Nat) (mt : List Nat)
    (j : Nat) (h : ∀ i ∈ is, j ≠ i) :
    (is.foldl (fun m i => twistAt m i (f i)) mt).getD j 0 = mt.getD j 0 := by
  induction is generalizing mt with
  | nil => rfl
  | cons i is ih =>
    rw [List.foldl_cons, ih _ (fun i hi => h i (List.mem_cons_of_mem _ hi)),
      twistAt_getD_ne _ _ _ _ (h i (List.mem_cons_self _ _))]

/-- Entries below 20 of the reloaded state are produced by the first 20
steps of the first reload loop; the remaining steps touch only indices
`≥ 20`. -/
theorem mtTwist_getD_lt (mt : List Nat) (j : Nat) (h : j < 20) :
    (mtTwist mt).getD j 0 =
      ((List.range' 0 20).foldl (fun m i => twistAt m i (i + 397)) mt).getD j 0 := by
  rw [mtTwist]
  rw [twistAt_getD_ne _ _ _ _ (by omega)]
  rw [foldl_twistAt_getD _ _ _ _ (fun i hi => by
    have := (List.mem_range'_1.mp hi).1; omega)]
  have hsplit : List.range 227 = List.range' 0 20 ++ List.range' 20 207 := by
    rw [List.range'_append_1]; exact List.range_eq_range' 227
  rw [hsplit, List.foldl_append]
  rw [foldl_twistAt_getD _ _ _ _ (fun i hi => by
    have := (List.mem_range'_1.mp hi).1; omega)]

/-- Draws with no reload: while the cursor stays below 624, `next()` just
tempers successive state words. -/
theorem draws_no_reload (n : Nat) : ∀ (m : MTState),
    m.index + n ≤ 624 → m.index + n ≤ m.mt.length →
    m.draws n =
      ((m.mt.drop m.index).take n).map (fun y => mtTemper y &&& 0xFFFFFFFF) := by
  induction n with
  | zero => intro m _ _; rfl
  | succ n ih =>
    intro m h hl
    have hidx : ¬ m.index ≥ 624 := by omega
    have hlt : m.index < m.mt.length := by omega
    rw [MTState.draws, MTState.next]
    simp only [hidx, if_false]
    rw [ih ⟨m.mt, m.index + 1⟩ (by simp; omega) (by simp; omega)]
    simp only
    rw [List.drop_eq_getElem_cons hlt, List.take_succ_cons, List.map_cons]
    rw [List.getD_eq_getElem _ _ hlt]

/-- Draws from a freshly reloaded state read off the first `n` state words. -/
theorem draws_from_zero (mt : List Nat) (n : Nat) (h624 : n ≤ 624)
    (hlen : n ≤ mt.length) :
    MTState.draws ⟨mt, 0⟩ n = (mt.take n).map (fun y => mtTemper y &&& 0xFFFFFFFF) := by
  have h := draws_no_reload n ⟨mt, 0⟩ (by simp; omega) (by simp; omega)
  simpa using h

/-! ### Swap algebra: involution of a single swap, commutation of disjoint
swaps, inversion by the reversed sequence, and permutation facts. -/

theorem swapPair_length (d : List Nat) (p : Nat × Nat) :
    (swapPair d p).length = d.length := by
  rw [swapPair]; split <;> simp

theorem applySwaps_length (ps : List (Nat × Nat)) (d : List Nat) :
    (applySwaps d ps).length = d.length := by
  induction ps generalizing d with
  | nil => rfl
  | cons p ps ih => rw [applySwaps_cons, ih, swapPair_length]

/-- Writing back the value already at an index is a no-op. -/
theorem set_getD_self (l : List Nat) (i : Nat) : l.set i (l.getD i 0) = l := by
  rcases Nat.lt_or_ge i l.length with h | h
  · apply List.ext_getElem?
    intro n
    rcases eq_or_ne n i with rfl | hne
    · rw [List.getElem?_set_self h, List.getD_eq_getElem _ _ h,
        List.getElem?_eq_getElem h]
    · rw [List.getElem?_set_ne (fun he => hne he.symm)]
  · exact List.set_eq_of_length_le h

/-- Interchange of two set-pairs at four mutually distinct positions. -/
theorem set_set_comm4 (l : List Nat) (i1 i2 j1 j2 a1 a2 b1 b2 : Nat)
    (h11 : i1 ≠ j1) (h12 : i1 ≠ j2) (h21 : i2 ≠ j1) (h22 : i2 ≠ j2) :
    (((l.set j1 b1).set j2 b2).set i1 a1).set i2 a2 =
      (((l.set i1 a1).set i2 a2).set j1 b1).set j2 b2 := by
  rw [List.set_comm b2 a1 _ (fun he => h12 he.symm)]
  rw [List.set_comm b1 a1 _ (fun he => h11 he.symm)]
  rw [List.set_comm b2 a2 _ (fun he => h22 he.symm)]
  rw [List.set_comm b1 a2 _ (fun he => h21 he.symm)]

/-- Each guarded pair swap is an involution. -/
theorem swapPair_swapPair (d : List Nat) (p : Nat × Nat) :
    swapPair (swapPair d p) p = d := by
  by_cases h : p.1 < d.length ∧ p.2 < d.length
  · rcases eq_or_ne p.1 p.2 with he | hne
    · have hid : swapPair d p = d := by
        rw [swapPair, if_pos h, he, List.set_set, set_getD_self]
      rw [hid, hid]
    · obtain ⟨h1, h2⟩ := h
      have hd : swapPair d p = (d.set p.1 (d.getD p.2 0)).set p.2 (d.getD p.1 0) := by
        rw [swapPair, if_pos ⟨h1, h2⟩]
      have hlen : (swapPair d p).length = d.length := swapPair_length d p
      rw [swapPair, if_pos (by rw [hlen]; exact ⟨h1, h2⟩)]
      have hg1 : (swapPair d p).getD p.1 0 = d.getD p.2 0 := by
        rw [hd, List.getD_eq_getElem?_getD, List.getElem?_set_ne (Ne.symm hne),
          List.getElem?_set_self h1]
        rfl
      have hg2 : (swapPair d p).getD p.2 0 = d.getD p.1 0 := by
        rw [hd, List.getD_eq_getElem?_getD, List.getElem?_set_self (by simpa using h2)]
        rfl
      rw [hg1, hg2, hd, List.set_comm _ _ _ (Ne.symm hne), List.set_set,
        List.set_set, set_getD_self, set_getD_self]
  · have hd : swapPair d p = d := by rw [swapPair, if_neg h]
    rw [hd, hd]

/-- Swaps at disjoint index pairs commute. -/
theorem swapPair_comm (d : List Nat) (p q : Nat × Nat) (h : pairDisjoint p q) :
    swapPair (swapPair d q) p = swapPair (swapPair d p) q := by
  obtain ⟨h11, h12, h21, h22⟩ := h
  by_cases hq : q.1 < d.length ∧ q.2 < d.length
  · by_cases hp : p.1 < d.length ∧ p.2 < d.length
    · have hdq : swapPair d q = (d.set q.1 (d.getD q.2 0)).set q.2 (d.getD q.1 0) := by
        rw [swapPair, if_pos hq]
      have hdp : swapPair d p = (d.set p.1 (d.getD p.2 0)).set p.2 (d.getD p.1 0) := by
        rw [swapPair, if_pos hp]
      have hrq : ∀ x, (swapPair d q).getD x 0 = d.getD x 0 ∨ x = q.1 ∨ x = q.2 := by
        intro x
        rcases eq_or_ne x q.1 with h1 | h1
        · exact Or.inr (Or.inl h1)
        rcases eq_or_ne x q.2 with h2 | h2
        · exact Or.inr (Or.inr h2)
        refine Or.inl ?_
        rw [hdq, List.getD_eq_getElem?_getD, List.getElem?_set_ne (fun he => h2 he.symm),
          List.getElem?_set_ne (fun he => h1 he.symm), List.getD_eq_getElem?_getD]
      have hq1 : (swapPair d q).getD p.1 0 = d.getD p.1 0 := by
        rcases hrq p.1 with h' | h' | h' <;> first | exact h' | exact absurd h' h11 | exact absurd h' h12
      have hq2 : (swapPair d q).getD p.2 0 = d.getD p.2 0 := by
        rcases hrq p.2 with h' | h' | h' <;> first | exact h' | exact absurd h' h21 | exact absurd h' h22
      have hrp : ∀ x, x ≠ p.1 → x ≠ p.2 → (swapPair d p).getD x 0 = d.getD x 0 := by
        intro x h1 h2
        rw [hdp, List.getD_eq_getElem?_getD, List.getElem?_set_ne (fun he => h2 he.symm),
          List.getElem?_set_ne (fun he => h1 he.symm), List.getD_eq_getElem?_getD]
      have hp1 : (swapPair d p).getD q.1 0 = d.getD q.1 0 :=
        hrp q.1 (fun he => h11 he.symm) (fun he => h21 he.symm)
      have hp2 : (swapPair d p).getD q.2 0 = d.getD q.2 0 :=
        hrp q.2 (fun he => h12 he.symm) (fun he => h22 he.symm)
      have hlq : (swapPair d q).length = d.length := swapPair_length d q
      have hlp : (swapPair d p).length = d.length := swapPair_length d p
      rw [swapPair, if_pos (by rw [hlq]; exact hp), hq1, hq2, hdq]
      rw [swapPair, if_pos (by rw [hlp]; exact hq), hp1, hp2, hdp]
      exact set_set_comm4 d p.1 p.2 q.1 q.2 (d.getD p.2 0) (d.getD p.1 0)
        (d.getD q.2 0) (d.getD q.1 0) h11 h12 h21 h22
    · have hdp : ∀ e : List Nat, e.length = d.length → swapPair e p = e := by
        intro e he
        rw [swapPair, if_neg (by rw [he]; exact hp)]
      rw [hdp _ (swapPair_length d q), hdp d rfl]
  · have hdq : ∀ e : List Nat, e.length = d.length → swapPair e q = e := by
      intro e he
      rw [swapPair, if_neg (by rw [he]; exact hq)]
    rw [hdq d rfl, hdq _ (swapPair_length d p)]

/-- A swap disjoint from a whole list of swaps commutes with their fold. -/
theorem applySwaps_swapPair_comm (ps : List (Nat × Nat)) (d : List Nat)
    (p : Nat × Nat) (h : ∀ q ∈ ps, pairDisjoint p q) :
    applySwaps (swapPair d p) ps = swapPair (applySwaps d ps) p := by
  induction ps generalizing d with
  | nil => rfl
  | cons q ps ih =>
    rw [applySwaps_cons, applySwaps_cons, ← swapPair_comm d p q (h q (List.mem_cons_self _ _))]
    exact ih _ (fun q hq => h q (List.mem_cons_of_mem _ hq))

/-- When the drawn pairs are pairwise index-disjoint, applying the forward
swap pass twice restores the buffer. -/
theorem applySwaps_involution (ps : List (Nat × Nat)) (d : List Nat)
    (h : pairsDisjoint ps) :
    applySwaps (applySwaps d ps) ps = d := by
  induction ps generalizing d with
  | nil => rfl
  | cons q ps ih =>
    rw [pairsDisjoint, List.pairwise_cons] at h
    obtain ⟨hq, hps⟩ := h
    rw [applySwaps_cons, applySwaps_cons, ← applySwaps_swapPair_comm ps _ q hq,
      swapPair_swapPair]
    exact ih _ hps

/-- The reversed swap sequence always undoes the forward pass. -/
theorem applySwaps_reverse (ps : List (Nat × Nat)) (d : List Nat) :
    applySwaps (applySwaps d ps) ps.reverse = d := by
  induction ps generalizing d with
  | nil => rfl
  | cons q ps ih =>
    rw [applySwaps_cons, List.reverse_cons, applySwaps_append, ih (swapPair d q),
      applySwaps_cons, applySwaps_nil, swapPair_swapPair]

/-- Helper (cons level): moving an element from position `j` to the head is a
permutation. -/
theorem perm_swap_zero : ∀ (xs : List Nat) (j : Nat) (x : Nat), j < xs.length →
    (xs.getD j 0 :: xs.set j x).Perm (x :: xs) := by
  intro xs
  induction xs with
  | nil => intro j x h; simp at h
  | cons y ys ih =>
    intro j x h
    match j with
    | 0 => exact List.Perm.swap x y ys
    | j + 1 =>
      have hj : j < ys.length := by simpa using h
      show (ys.getD j 0 :: y :: ys.set j x).Perm (x :: y :: ys)
      exact ((List.Perm.swap y (ys.getD j 0) (ys.set j x)).trans
        ((ih j x hj).cons y)).trans (List.Perm.swap x y ys)

/-- A guarded in-range swap is a permutation. -/
theorem perm_set_set : ∀ (d : List Nat) (i j : Nat), i < d.length → j < d.length →
    ((d.set i (d.getD j 0)).set j (d.getD i 0)).Perm d := by
  intro d
  induction d with
  | nil => intro i j h; simp at h
  | cons x xs ih =>
    intro i j hi hj
    match i, j with
    | 0, 0 => simp
    | 0, j + 1 =>
      have hj : j < xs.length := by simpa using hj
      show (xs.getD j 0 :: xs.set j x).Perm (x :: xs)
      exact perm_swap_zero xs j x hj
    | i + 1, 0 =>
      have hi : i < xs.length := by simpa using hi
      show (xs.getD i 0 :: xs.set i x).Perm (x :: xs)
      exact perm_swap_zero xs i x hi
    | i + 1, j + 1 =>
      have hi : i < xs.length := by simpa using hi
      have hj : j < xs.length := by simpa using hj
      exact (ih i j hi hj).cons x

theorem swapPair_perm (d : List Nat) (p : Nat × Nat) : (swapPair d p).Perm d := by
  rw [swapPair]
  split
  · next h => exact perm_set_set d p.1 p.2 h.1 h.2
  · exact List.Perm.refl d

theorem applySwaps_perm (ps : List (Nat × Nat)) (d : List Nat) :
    (applySwaps d ps).Perm d := by
  induction ps generalizing d with
  | nil => exact List.Perm.refl d
  | cons p ps ih =>
    rw [applySwaps_cons]
    exact (ih (swapPair d p)).trans (swapPair_perm d p)

theorem seedFill_S : seedFill 0x12345678 624 = sfLitS := by decide

theorem take_eq_of_getD (l l' : List Nat) (n : Nat) (h1 : n ≤ l.length)
    (h2 : n ≤ l'.length) (h : ∀ j, j < n → l.getD j 0 = l'.getD j 0) :
    l.take n = l'.take n := by
  apply List.ext_getElem?
  intro m
  by_cases hm : m < n
  · rw [List.getElem?_take_of_lt hm, List.getElem?_take_of_lt hm]
    have hlm : m < l.length := by omega
    have hlm' : m < l'.length := by omega
    rw [List.getElem?_eq_getElem hlm, List.getElem?_eq_getElem hlm']
    have hx := h m hm
    rw [List.getD_eq_getElem _ _ hlm, List.getD_eq_getElem _ _ hlm'] at hx
    exact congrArg some hx
  · rw [List.getElem?_eq_none (by simp [List.length_take]; omega),
      List.getElem?_eq_none (by simp [List.length_take]; omega)]

theorem draws_S : (MTState.seeded 0x12345678).draws 20 = drawsLitS := by
  have h1 : MTState.seeded 0x12345678 = ⟨mtTwist (seedFill 0x12345678 624), 0⟩ := rfl
  have hlen : (mtTwist (seedFill 0x12345678 624)).length = 624 := by
    rw [mtTwist_length, seedFill_length]
  rw [h1, draws_no_reload 20 _ (by simp) (by simp [hlen])]
  rw [List.drop_zero]
  have h2 : (mtTwist (seedFill 0x12345678 624)).take 20 =
      ((List.range' 0 20).foldl (fun m i => twistAt m i (i + 397))
        (seedFill 0x12345678 624)).take 20 := by
    apply take_eq_of_getD _ _ _ (by omega) _ (fun j hj => mtTwist_getD_lt _ j hj)
    rw [foldl_twistAt_length, seedFill_length]
    omega
  rw [h2, seedFill_S]
  decide

theorem genPairs_eq_pairListOf (n : Nat) : ∀ (m : MTState) (size : Nat), size ≠ 0 →
    genPairs m size n = pairListOf (m.draws (2 * n)) size := by
  induction n with
  | zero => intro m size _; rfl
  | succ n ih =>
    intro m size h
    rw [show 2 * (n + 1) = 2 * n + 1 + 1 by ring]
    show ((m.rand size).1, ((m.rand size).2.rand size).1) ::
        genPairs ((m.rand size).2.rand size).2 size n =
      pairListOf (m.next.1 :: m.next.2.next.1 :: m.next.2.next.2.draws (2 * n)) size
    rw [MTState.rand, if_neg h]
    rw [MTState.rand, if_neg h]
    rw [pairListOf, ih _ _ h]

theorem pairs_S (size : Nat) (h : size ≠ 0) :
    genPairs (MTState.seeded 0x12345678) size 10 = pairListOf drawsLitS size := by
  rw [genPairs_eq_pairListOf 10 _ size h, show (2 * 10 : Nat) = 20 from rfl, draws_S]

/-! ### Claims C7, C8, C10: shuffle properties. -/

/-- C10: every shuffle operation (`scramble`, `unscramble`,
`shuffle_compressed`, `unshuffle_decompressed`) is total and
content-preserving: for every seed/key, buffer, and size argument it returns
a buffer of the same length whose bytes are a permutation of the input
(index pairs falling outside the buffer are silently skipped; the embedding
is total, mirroring that the Python code cannot raise here). -/
theorem shuffle_ops_length_and_perm (key size : Nat) (d : List Nat) :
    ((scramble d key).length = d.length ∧ (scramble d key).Perm d) ∧
    ((unscramble d key size).length = d.length ∧ (unscramble d key size).Perm d) ∧
    ((shuffle_compressed d key size).length = d.length ∧
      (shuffle_compressed d key size).Perm d) ∧
    ((unshuffle_decompressed d key size).length = d.length ∧
      (unshuffle_decompressed d key size).Perm d) :=
  ⟨⟨applySwaps_length _ _, applySwaps_perm _ _⟩,
   ⟨applySwaps_length _ _, applySwaps_perm _ _⟩,
   ⟨applySwaps_length _ _, applySwaps_perm _ _⟩,
   ⟨applySwaps_length _ _, applySwaps_perm _ _⟩⟩

/-- C7 counterexample: the 10-pair swap pass is NOT an involution in
general.  For key `0x12345678` and the 3-byte buffer `[10, 11, 12]` (size
argument equal to the length), the drawn index pairs overlap and compose to
a 3-cycle, so applying the pass twice does not restore the buffer. -/
theorem unscramble_twice_not_id :
    unscramble (unscramble [10, 11, 12] 0x12345678 3) 0x12345678 3 ≠ [10, 11, 12] := by
  rw [unscramble, unscramble, pairs_S 3 (by decide)]
  decide

/-- C7 amended: the double shuffle pass `shuffle(shuffle(b, k, n), k, n)`
with `n = len(b)` restores `b` provided the 10 drawn index pairs are
pairwise index-disjoint (each buffer position is touched by at most one
swap); without that proviso the claim fails (see the counterexample). -/
theorem unscramble_involution_of_disjoint (b : List Nat) (k n : Nat)
    (_hn : n = b.length)
    (hdisj : pairsDisjoint (genPairs (MTState.seeded k) n 10)) :
    unscramble (unscramble b k n) k n = b := by
  rw [unscramble, unscramble]
  exact applySwaps_involution _ _ hdisj

/-- C7 witness: for key `0x12345678` and the 70-byte buffer `range 70` the
drawn pairs are pairwise disjoint and the double pass is the identity. -/
theorem unscramble_involution_witness :
    unscramble (unscramble (List.range 70) 0x12345678 70) 0x12345678 70 = List.range 70 :=
  unscramble_involution_of_disjoint (List.range 70) 0x12345678 70
    (by simp) (by rw [pairs_S 70 (by decide)]; decide)

/-- C8 counterexample: `shuffle_compressed` (forward order) and
`unshuffle_decompressed` (reverse order) do NOT produce identical outputs in
general: for key `0x12345678`, size 3, buffer `[20, 21, 22]`, the drawn
pairs overlap, so the two swap orders compose to different permutations. -/
theorem shuffle_forward_reverse_differ :
    shuffle_compressed [20, 21, 22] 0x12345678 3 ≠
      unshuffle_decompressed [20, 21, 22] 0x12345678 3 := by
  rw [shuffle_compressed, unshuffle_decompressed, pairs_S 3 (by decide)]
  decide

/-- C8 amended: the two variants are not equal as functions; the true
relation is that the reverse-order pass inverts the forward pass: for every
buffer, key and size, `unshuffle_decompressed (shuffle_compressed b k n) k n`
restores `b` (each swap is involutive, and the reversed sequence unwinds the
forward sequence). -/
theorem unshuffle_inverts_shuffle (data : List Nat) (key size : Nat) :
    unshuffle_decompressed (shuffle_compressed data key size) key size = data := by
  rw [shuffle_compressed, unshuffle_decompressed]
  exact applySwaps_reverse _ _

/-! ### Claims C1, C2: round-trip failures of the encoder. -/

/-- C2: the LZSS round trip fails.  On `[7, 7, 0, 0]` the greedy encoder
emits, at position 1, a 3-byte overlapping match (offset 4078 = the cursor
minus 1) whose bytes 2 and 3 it validated against the *stale* zero-filled
window beyond the cursor; the decoder replays the same reference through
the freshly written window and reproduces byte 7 instead, yielding
`[7, 7, 7, 7]`. -/
theorem lzss_roundtrip_fails_on_7700 :
    decompress_lzss (compress_lzss [7, 7, 0, 0]) 4 ≠ [7, 7, 0, 0] ∧
    compress_lzss [7, 7, 0, 0] = [0x01, 0x07, 0xEE, 0xF0] ∧
    decompress_lzss [0x01, 0x07, 0xEE, 0xF0] 4 = [7, 7, 7, 7] := by decide

theorem exists_len4 (l : List Nat) (h : l.length = 4) :
    ∃ a b c d, l = [a, b, c, d] := by
  match l with
  | [a, b, c, d] => exact ⟨a, b, c, d, rfl⟩
  | [] | [_] | [_, _] | [_, _, _] => simp at h
  | _ :: _ :: _ :: _ :: _ :: _ => simp at h

/-- C1: the GYU encode/decode round trip fails.  For the bpp-8, 1×1 raster
`[0, 0, 0, 0]` (stride 4) with key `0x12345678` and no alpha, the encoder's
LZSS output `[1, 0, 238, 240]` is 4 bytes — exactly the raster size — so the
decoder classifies the payload as uncompressed and returns the unscrambled
scrambled *compressed* bytes `[1, 240, 0, 238]` as the raster (the forward
"unscramble" pass also fails to invert the forward scramble pass here). -/
theorem gyu_roundtrip_fails :
    (decode_gyu (png_to_gyu [0, 0, 0, 0] [] 0 0x12345678 8 1 1 [])).map
        GyuImage.rgb ≠ some [0, 0, 0, 0] := by
  have hcomp : compress_lzss [0, 0, 0, 0] = [1, 0, 238, 240] := by decide
  have hscr : scramble [1, 0, 238, 240] 0x12345678 = [1, 238, 240, 0] := by
    have h4 : ([1, 0, 238, 240] : List Nat).length = 4 := rfl
    rw [scramble, h4, pairs_S 4 (by decide)]
    decide
  have hfile : png_to_gyu [0, 0, 0, 0] [] 0 0x12345678 8 1 1 [] =
      c1Hdr ++ [1, 238, 240, 0] := by
    simp only [png_to_gyu, hcomp, hscr]
    decide
  have hdec : decode_gyu (c1Hdr ++ [1, 238, 240, 0]) =
      some ⟨1, 1, 8, 4, unscramble [1, 238, 240, 0] 0x12345678 4, none, 0, none⟩ := rfl
  have hun : unscramble [1, 238, 240, 0] 0x12345678 4 = [1, 240, 0, 238] := by
    rw [unscramble, pairs_S 4 (by decide)]
    decide
  rw [hfile, hdec, hun]
  decide

theorem xorWordAt_length (l : List Nat) (off key : Nat) :
    (xorWordAt l off key).length = l.length := by
  rw [xorWordAt]; split <;> simp

theorem xorWordAt_getD_out (l : List Nat) (off key j : Nat)
    (h : j < off ∨ off + 4 ≤ j) :
    (xorWordAt l off key).getD j 0 = l.getD j 0 := by
  rw [xorWordAt]
  split
  · simp only [List.getD_eq_getElem?_getD]
    rw [List.getElem?_set_ne (by omega), List.getElem?_set_ne (by omega),
      List.getElem?_set_ne (by omega), List.getElem?_set_ne (by omega)]
  · rfl

theorem xorWordAt_getD_in (l : List Nat) (off key j : Nat)
    (hlen : off + 4 ≤ l.length) (h1 : off ≤ j) (h2 : j < off + 4) :
    (xorWordAt l off key).getD j 0 =
      (readU32 l off ^^^ key) / 2 ^ (8 * (j - off)) % 256 := by
  rw [xorWordAt, if_pos hlen]
  have hc : j = off ∨ j = off + 1 ∨ j = off + 2 ∨ j = off + 3 := by omega
  rcases hc with rfl | rfl | rfl | rfl
  · simp only [List.getD_eq_getElem?_getD]
    rw [List.getElem?_set_ne (by omega), List.getElem?_set_ne (by omega),
      List.getElem?_set_ne (by omega), List.getElem?_set_self (by simpa using by omega)]
    simp
  · simp only [List.getD_eq_getElem?_getD]
    rw [List.getElem?_set_ne (by omega), List.getElem?_set_ne (by omega),
      List.getElem?_set_self (by simpa using by omega)]
    norm_num
  · simp only [List.getD_eq_getElem?_getD]
    rw [List.getElem?_set_ne (by omega),
      List.getElem?_set_self (by simpa using by omega)]
    norm_num
  · simp only [List.getD_eq_getElem?_getD]
    rw [List.getElem?_set_self (by simpa using by omega)]
    norm_num

theorem decrypt_fold_length (data keys : List Nat) (m : Nat) :
    ((List.range m).foldl
      (fun l k => xorWordAt l (0x10 + 4 * k) (keys.getD (k &&& 0xFF) 0)) data).length =
      data.length := by
  induction m with
  | zero => rfl
  | succ m ih =>
    rw [List.range_succ, List.foldl_append, List.foldl_cons, List.foldl_nil,
      xorWordAt_length, ih]

/-- Characterisation of the decrypt fold, byte by byte: after processing the
first `m` words, a byte inside word `k < m` carries the XORed word's bytes,
every other byte is untouched. -/
theorem decrypt_fold_getD (data keys : List Nat) (m : Nat)
    (hm : ∀ k, k < m → 0x10 + 4 * k + 4 ≤ data.length) : ∀ (j : Nat),
    ((List.range m).foldl
      (fun l k => xorWordAt l (0x10 + 4 * k) (keys.getD (k &&& 0xFF) 0)) data).getD j 0 =
      if 0x10 ≤ j ∧ j < 0x10 + 4 * m then
        (readU32 data (0x10 + 4 * ((j - 0x10) / 4)) ^^^
          keys.getD (((j - 0x10) / 4) &&& 0xFF) 0) / 2 ^ (8 * ((j - 0x10) % 4)) % 256
      else data.getD j 0 := by
  induction m with
  | zero =>
    intro j
    rw [if_neg (by omega)]
    rfl
  | succ m ih =>
    intro j
    rw [List.range_succ, List.foldl_append, List.foldl_cons, List.foldl_nil]
    have hlen : ((List.range m).foldl
        (fun l k => xorWordAt l (0x10 + 4 * k) (keys.getD (k &&& 0xFF) 0)) data).length =
        data.length := decrypt_fold_length data keys m
    have ih' := ih (fun k hk => hm k (by omega))
    by_cases hj : 0x10 + 4 * m ≤ j ∧ j < 0x10 + 4 * m + 4
    · -- inside the word processed by this step
      rw [xorWordAt_getD_in _ _ _ _ (by rw [hlen]; exact hm m (by omega)) hj.1 hj.2]
      have hread : readU32 ((List.range m).foldl
          (fun l k => xorWordAt l (0x10 + 4 * k) (keys.getD (k &&& 0xFF) 0)) data)
          (0x10 + 4 * m) = readU32 data (0x10 + 4 * m) := by
        rw [readU32, readU32]
        rw [ih' (0x10 + 4 * m), ih' (0x10 + 4 * m + 1), ih' (0x10 + 4 * m + 2),
          ih' (0x10 + 4 * m + 3)]
        rw [if_neg (by omega), if_neg (by omega), if_neg (by omega), if_neg (by omega)]
      rw [hread]
      have hk : (j - 0x10) / 4 = m := by omega
      have hr : (j - 0x10) % 4 = j - (0x10 + 4 * m) := by omega
      rw [if_pos (by omega), hk, hr]
    · -- untouched by this step
      rw [xorWordAt_getD_out _ _ _ _ (by omega), ih' j]
      by_cases hin : 0x10 ≤ j ∧ j < 0x10 + 4 * m
      · rw [if_pos hin, if_pos (by omega)]
      · rw [if_neg hin, if_neg (by omega)]

theorem getD_lt_256 (data : List Nat) (hd : ∀ b ∈ data, b < 256) (j : Nat) :
    data.getD j 0 < 256 := by
  rcases Nat.lt_or_ge j data.length with h | h
  · rw [List.getD_eq_getElem _ _ h]
    exact hd _ (List.getElem_mem h)
  · rw [List.getD_eq_getElem?_getD, List.getElem?_eq_none h]
    norm_num

theorem readU32_lt (data : List Nat) (hd : ∀ b ∈ data, b < 256) (off : Nat) :
    readU32 data off < 2 ^ 32 := by
  have h0 := getD_lt_256 data hd off
  have h1 := getD_lt_256 data hd (off + 1)
  have h2 := getD_lt_256 data hd (off + 2)
  have h3 := getD_lt_256 data hd (off + 3)
  simp only [readU32, show (2 : Nat) ^ 8 = 256 by norm_num,
    show (2 : Nat) ^ 16 = 65536 by norm_num, show (2 : Nat) ^ 24 = 16777216 by norm_num,
    show (2 : Nat) ^ 32 = 4294967296 by norm_num]
  omega

theorem decrypt_rld_length (data keys : List Nat) :
    (decrypt_rld data keys).length = data.length :=
  decrypt_fold_length data keys _

/-- The byte-level characterisation of `decrypt_rld` itself. -/
theorem decrypt_rld_getD (data keys : List Nat) (j : Nat) :
    (decrypt_rld data keys).getD j 0 =
      if 0x10 ≤ j ∧ j < min data.length 0xFFCF - min data.length 0xFFCF % 4 then
        (readU32 data (0x10 + 4 * ((j - 0x10) / 4)) ^^^
          keys.getD (((j - 0x10) / 4) &&& 0xFF) 0) / 2 ^ (8 * ((j - 0x10) % 4)) % 256
      else data.getD j 0 := by
  have hBle : min data.length 0xFFCF ≤ data.length := Nat.min_le_left _ _
  rw [decrypt_rld]
  rw [decrypt_fold_getD data keys _ (fun k hk => by omega) j]
  rcases Nat.lt_or_ge (min data.length 0xFFCF - min data.length 0xFFCF % 4) 0x10
    with hsm | hlg
  · rw [if_neg (by omega), if_neg (by omega)]
  · have hmul : 0x10 + 4 * ((min data.length 0xFFCF - min data.length 0xFFCF % 4 - 0x10) / 4) =
        min data.length 0xFFCF - min data.length 0xFFCF % 4 := by
      omega
    rw [hmul]

theorem and_255_eq_mod (i : Nat) : i &&& 0xFF = i % 256 := by
  have h := Nat.and_pow_two_sub_one_eq_mod i 8
  norm_num at h
  exact h

theorem list_eq_of_getD (l₁ l₂ : List Nat) (hl : l₁.length = l₂.length)
    (h : ∀ j, j < l₁.length → l₁.getD j 0 = l₂.getD j 0) : l₁ = l₂ := by
  apply List.ext_getElem hl
  intro i h1 h2
  have hx := h i h1
  rw [List.getD_eq_getElem _ _ h1, List.getD_eq_getElem _ _ h2] at hx
  exact hx

/-- Byte `r` of a little-endian 32-bit read is the byte at `off + r`. -/
theorem readU32_byte (data : List Nat) (hd : ∀ b ∈ data, b < 256) (off r : Nat)
    (hr : r < 4) :
    readU32 data off / 2 ^ (8 * r) % 256 = data.getD (off + r) 0 := by
  have hb0 := getD_lt_256 data hd off
  have hb1 := getD_lt_256 data hd (off + 1)
  have hb2 := getD_lt_256 data hd (off + 2)
  have hb3 := getD_lt_256 data hd (off + 3)
  have hc : r = 0 ∨ r = 1 ∨ r = 2 ∨ r = 3 := by omega
  rcases hc with rfl | rfl | rfl | rfl <;>
    (simp only [readU32, Nat.add_zero, show 8 * 0 = 0 by norm_num,
      show 8 * 1 = 8 by norm_num, show 8 * 2 = 16 by norm_num,
      show 8 * 3 = 24 by norm_num, show (2 : Nat) ^ 0 = 1 by norm_num,
      show (2 : Nat) ^ 8 = 256 by norm_num, show (2 : Nat) ^ 16 = 65536 by norm_num,
      show (2 : Nat) ^ 24 = 16777216 by norm_num, Nat.div_one]
     omega)

/-- The encrypted words of `decrypt_rld`, read back as 32-bit words. -/
theorem decrypt_rld_readU32 (data keys : List Nat) (hk : keys.length = 256)
    (hkb : ∀ k ∈ keys, k < 2 ^ 32) (hd : ∀ b ∈ data, b < 256) (i : Nat)
    (hi : 0x10 + 4 * i < min data.length 0xFFCF - min data.length 0xFFCF % 4) :
    readU32 (decrypt_rld data keys) (0x10 + 4 * i) =
      readU32 data (0x10 + 4 * i) ^^^ keys.getD (i % 256) 0 := by
  have hBle : min data.length 0xFFCF ≤ data.length := Nat.min_le_left _ _
  have hkey : keys.getD (i % 256) 0 < 2 ^ 32 := by
    have hlt : i % 256 < keys.length := by omega
    rw [List.getD_eq_getElem _ _ hlt]
    exact hkb _ (List.getElem_mem hlt)
  have hw : readU32 data (0x10 + 4 * i) ^^^ keys.getD (i % 256) 0 < 2 ^ 32 :=
    Nat.xor_lt_two_pow (readU32_lt data hd _) hkey
  rw [readU32]
  rw [decrypt_rld_getD data keys (0x10 + 4 * i),
    decrypt_rld_getD data keys (0x10 + 4 * i + 1),
    decrypt_rld_getD data keys (0x10 + 4 * i + 2),
    decrypt_rld_getD data keys (0x10 + 4 * i + 3)]
  rw [if_pos (by omega), if_pos (by omega), if_pos (by omega), if_pos (by omega)]
  have e1 : (0x10 + 4 * i - 0x10) / 4 = i := by omega
  have e2 : (0x10 + 4 * i + 1 - 0x10) / 4 = i := by omega
  have e3 : (0x10 + 4 * i + 2 - 0x10) / 4 = i := by omega
  have e4 : (0x10 + 4 * i + 3 - 0x10) / 4 = i := by omega
  have f1 : (0x10 + 4 * i - 0x10) % 4 = 0 := by omega
  have f2 : (0x10 + 4 * i + 1 - 0x10) % 4 = 1 := by omega
  have f3 : (0x10 + 4 * i + 2 - 0x10) % 4 = 2 := by omega
  have f4 : (0x10 + 4 * i + 3 - 0x10) % 4 = 3 := by omega
  rw [e1, e2, e3, e4, f1, f2, f3, f4, and_255_eq_mod]
  generalize readU32 data (0x10 + 4 * i) ^^^ keys.getD (i % 256) 0 = W at hw ⊢
  simp only [show 8 * 0 = 0 by norm_num, show 8 * 1 = 8 by norm_num,
    show 8 * 2 = 16 by norm_num, show 8 * 3 = 24 by norm_num,
    show (2 : Nat) ^ 0 = 1 by norm_num, show (2 : Nat) ^ 8 = 256 by norm_num,
    show (2 : Nat) ^ 16 = 65536 by norm_num, show (2 : Nat) ^ 24 = 16777216 by norm_num,
    show (2 : Nat) ^ 32 = 4294967296 by norm_num, Nat.div_one] at hw ⊢
  omega

/-! ### Claims C3, C4: the RLD decrypt frame and involution. -/

/-- C3: for every input byte string and 256-entry key table (of 32-bit
words), `decrypt_rld` returns an output of the same length in which the
32-bit little-endian word at offset `0x10 + 4*i` is XORed with
`keys[i mod 256]` for every `i` with `0x10 + 4*i` below
`min(len, 0xFFCF)` rounded down to a multiple of 4, and every byte at
offset below `0x10` or at or beyond that bound is unchanged. -/
theorem rld_decrypt_frame (data keys : List Nat) (hk : keys.length = 256)
    (hkb : ∀ k ∈ keys, k < 2 ^ 32) (hd : ∀ b ∈ data, b < 256) :
    (decrypt_rld data keys).length = data.length ∧
    (∀ i, 0x10 + 4 * i < min data.length 0xFFCF - min data.length 0xFFCF % 4 →
      readU32 (decrypt_rld data keys) (0x10 + 4 * i) =
        readU32 data (0x10 + 4 * i) ^^^ keys.getD (i % 256) 0) ∧
    (∀ j, j < 0x10 ∨ min data.length 0xFFCF - min data.length 0xFFCF % 4 ≤ j →
      (decrypt_rld data keys).getD j 0 = data.getD j 0) :=
  ⟨decrypt_rld_length data keys,
   fun i hi => decrypt_rld_readU32 data keys hk hkb hd i hi,
   fun j hj => by rw [decrypt_rld_getD, if_neg (by omega)]⟩

theorem rld_decrypt_frame_witness :
    (decrypt_rld (List.range 24) (List.replicate 256 7)).length = (List.range 24).length ∧
    (∀ i, 0x10 + 4 * i <
        min (List.range 24).length 0xFFCF - min (List.range 24).length 0xFFCF % 4 →
      readU32 (decrypt_rld (List.range 24) (List.replicate 256 7)) (0x10 + 4 * i) =
        readU32 (List.range 24) (0x10 + 4 * i) ^^^ (List.replicate 256 7).getD (i % 256) 0) ∧
    (∀ j, j < 0x10 ∨
        min (List.range 24).length 0xFFCF - min (List.range 24).length 0xFFCF % 4 ≤ j →
      (decrypt_rld (List.range 24) (List.replicate 256 7)).getD j 0 =
        (List.range 24).getD j 0) :=
  rld_decrypt_frame (List.range 24) (List.replicate 256 7) (by decide) (by decide)
    (by decide)

/-- C4: `decrypt_rld` is self-inverse: decrypting twice with the same
256-entry key table of 32-bit words restores the input byte string. -/
theorem rld_decrypt_involution (data keys : List Nat) (hk : keys.length = 256)
    (hkb : ∀ k ∈ keys, k < 2 ^ 32) (hd : ∀ b ∈ data, b < 256) :
    decrypt_rld (decrypt_rld data keys) keys = data := by
  have hlen : (decrypt_rld data keys).length = data.length := decrypt_rld_length _ _
  apply list_eq_of_getD _ _ (by rw [decrypt_rld_length, hlen])
  intro j hj
  rw [decrypt_rld_getD, hlen]
  by_cases hcond : 0x10 ≤ j ∧ j < min data.length 0xFFCF - min data.length 0xFFCF % 4
  · have hBle : min data.length 0xFFCF ≤ data.length := Nat.min_le_left _ _
    rw [if_pos hcond]
    rw [decrypt_rld_readU32 data keys hk hkb hd ((j - 0x10) / 4) (by omega)]
    rw [and_255_eq_mod]
    rw [Nat.xor_assoc, Nat.xor_self, Nat.xor_zero]
    rw [readU32_byte data hd _ _ (by omega)]
    congr 1
    omega
  · rw [if_neg hcond]
    rw [decrypt_rld_getD, if_neg hcond]

theorem rld_decrypt_involution_witness :
    decrypt_rld (decrypt_rld (List.range 24) (List.replicate 256 7))
      (List.replicate 256 7) = List.range 24 :=
  rld_decrypt_involution (List.range 24) (List.replicate 256 7) (by decide) (by decide)
    (by decide)

/-! ### Claim C5: key-table equivalence. -/

theorem seedFill_bound (n : Nat) : ∀ (a : Nat), ∀ x ∈ seedFill a n, x < 2 ^ 32 := by
  induction n with
  | zero => intro a x hx; simp [seedFill] at hx
  | succ n ih =>
    intro a x hx
    rw [seedFill] at hx
    rcases List.mem_cons.mp hx with rfl | hx
    · apply Nat.or_lt_two_pow
      · exact Nat.and_lt_two_pow _ (by norm_num)
      · have h1 : ((69069 * a + 1) % 2 ^ 32) >>> 16 ≤ (69069 * a + 1) % 2 ^ 32 := by
          rw [Nat.shiftRight_eq_div_pow]; exact Nat.div_le_self _ _
        have h2 : (69069 * a + 1) % 2 ^ 32 < 2 ^ 32 := Nat.mod_lt _ (by norm_num)
        omega
    · exact ih _ x hx

theorem twistAt_bound (mt : List Nat) (i src : Nat)
    (hmt : ∀ x ∈ mt, x < 2 ^ 32) : ∀ x ∈ twistAt mt i src, x < 2 ^ 32 := by
  intro x hx
  have hgd : ∀ j, mt.getD j 0 < 2 ^ 32 := by
    intro j
    rcases Nat.lt_or_ge j mt.length with h | h
    · rw [List.getD_eq_getElem _ _ h]; exact hmt _ (List.getElem_mem h)
    · rw [List.getD_eq_getElem?_getD, List.getElem?_eq_none h]; norm_num
  rcases List.mem_or_eq_of_mem_set hx with hx' | rfl
  · exact hmt _ hx'
  · have hy : ((mt.getD i 0 &&& 0x80000000) |||
        (mt.getD ((i + 1) % 624) 0 &&& 0x7FFFFFFF)) < 2 ^ 32 :=
      Nat.or_lt_two_pow (Nat.and_lt_two_pow _ (by norm_num))
        (Nat.and_lt_two_pow _ (by norm_num))
    have hy1 : ((mt.getD i 0 &&& 0x80000000) |||
        (mt.getD ((i + 1) % 624) 0 &&& 0x7FFFFFFF)) >>> 1 ≤
        (mt.getD i 0 &&& 0x80000000) ||| (mt.getD ((i + 1) % 624) 0 &&& 0x7FFFFFFF) := by
      rw [Nat.shiftRight_eq_div_pow]; exact Nat.div_le_self _ _
    apply Nat.xor_lt_two_pow
    · exact Nat.xor_lt_two_pow (hgd src) (by omega)
    · split <;> norm_num

theorem mtTwist_bound (mt : List Nat) (hmt : ∀ x ∈ mt, x < 2 ^ 32) :
    ∀ x ∈ mtTwist mt, x < 2 ^ 32 := by
  rw [mtTwist]
  apply twistAt_bound
  have hfold : ∀ (f : Nat → Nat) (is : List Nat) (m : List Nat),
      (∀ x ∈ m, x < 2 ^ 32) →
      ∀ x ∈ is.foldl (fun m i => twistAt m i (f i)) m, x < 2 ^ 32 := by
    intro f is
    induction is with
    | nil => intro m hm; exact hm
    | cons i is ih =>
      intro m hm
      rw [List.foldl_cons]
      exact ih _ (twistAt_bound _ _ _ hm)
  exact hfold _ _ _ (hfold _ _ _ hmt)

theorem mtTemper_lt (y : Nat) (hy : y < 2 ^ 32) : mtTemper y < 2 ^ 32 := by
  have hle : ∀ a k : Nat, a < 2 ^ 32 → a ^^^ (a >>> k) < 2 ^ 32 := by
    intro a k ha
    apply Nat.xor_lt_two_pow ha
    have h1 : a >>> k ≤ a := by
      rw [Nat.shiftRight_eq_div_pow]; exact Nat.div_le_self _ _
    omega
  have h2 : (y ^^^ (y >>> 11)) ^^^ (((y ^^^ (y >>> 11)) <<< 7) &&& 0x9D2C5680) < 2 ^ 32 :=
    Nat.xor_lt_two_pow (hle y 11 hy) (Nat.and_lt_two_pow _ (by norm_num))
  have h3 : _ < 2 ^ 32 :=
    Nat.xor_lt_two_pow h2 (Nat.and_lt_two_pow
      (((y ^^^ (y >>> 11)) ^^^ (((y ^^^ (y >>> 11)) <<< 7) &&& 0x9D2C5680)) <<< 15)
      (show (0xEFC60000 : Nat) < 2 ^ 32 by norm_num))
  exact hle _ 18 h3

theorem map_take_eq_map_range (F : Nat → Nat) (l : List Nat) (n : Nat)
    (h : n ≤ l.length) :
    (l.take n).map F = (List.range n).map fun i => F (l.getD i 0) := by
  apply List.ext_getElem (by simp; omega)
  intro i h1 h2
  have hi : i < l.length := by simp at h1; omega
  simp only [List.getElem_map, List.getElem_take, List.getElem_range]
  rw [List.getD_eq_getElem _ _ hi]

/-- C5: `generate_key_table s` equals the list obtained by seeding a
`MersenneTwister` with `s` and taking its first 256 draws, each XORed with
`s` modulo `2^32`; it has exactly 256 entries, all below `2^32`. -/
theorem generate_key_table_eq_spec (s : Nat) (hs : s < 2 ^ 32) :
    generate_key_table s = keyTableSpec s ∧
    (generate_key_table s).length = 256 ∧
    ∀ v ∈ generate_key_table s, v < 2 ^ 32 := by
  have hstate : ∀ x ∈ mtTwist (seedFill s 624), x < 2 ^ 32 :=
    mtTwist_bound _ (seedFill_bound 624 s)
  have hgd : ∀ j, (mtTwist (seedFill s 624)).getD j 0 < 2 ^ 32 := by
    intro j
    rcases Nat.lt_or_ge j (mtTwist (seedFill s 624)).length with h | h
    · rw [List.getD_eq_getElem _ _ h]; exact hstate _ (List.getElem_mem h)
    · rw [List.getD_eq_getElem?_getD, List.getElem?_eq_none h]; norm_num
  refine ⟨?_, by simp [generate_key_table], ?_⟩
  · have hlen : (mtTwist (seedFill s 624)).length = 624 := by
      rw [mtTwist_length, seedFill_length]
    rw [keyTableSpec]
    have hseeded : MTState.seeded s = ⟨mtTwist (seedFill s 624), 0⟩ := rfl
    rw [hseeded, draws_from_zero (mtTwist (seedFill s 624)) 256 (by norm_num)
      (by rw [hlen]; norm_num)]
    rw [List.map_map]
    rw [map_take_eq_map_range _ _ 256 (by rw [hlen]; norm_num)]
    rw [generate_key_table]
    apply List.map_congr_left
    intro i _
    simp only [Function.comp]
    have ht : mtTemper ((mtTwist (seedFill s 624)).getD i 0) < 2 ^ 32 :=
      mtTemper_lt _ (hgd i)
    have hmask : ∀ x : Nat, x < 2 ^ 32 → x &&& 0xFFFFFFFF = x := by
      intro x hx
      have h := Nat.and_pow_two_sub_one_of_lt_two_pow (n := 32) hx
      norm_num at h
      exact h
    rw [hmask _ ht]
    rw [hmask _ (Nat.xor_lt_two_pow ht hs)]
    rw [Nat.mod_eq_of_lt (Nat.xor_lt_two_pow ht hs)]
  · intro v hv
    rw [generate_key_table] at hv
    obtain ⟨i, _, rfl⟩ := List.mem_map.mp hv
    exact Nat.and_lt_two_pow _ (by norm_num)

theorem generate_key_table_eq_spec_witness :
    generate_key_table 0x20100806 = keyTableSpec 0x20100806 ∧
    (generate_key_table 0x20100806).length = 256 ∧
    ∀ v ∈ generate_key_table 0x20100806, v < 2 ^ 32 :=
  generate_key_table_eq_spec 0x20100806 (by norm_num)

/-- C9 counterexample: a command whose two declared parameter words could
not be read (the input ends right after the header) is still returned, with
the missing parameters simply omitted — partially assembled commands are NOT
discarded. -/
theorem parse_rld_keeps_partial_command :
    parse_rld c9Data = [⟨16, 1, [], []⟩] ∧
    (readU32 c9Data 16 >>> 16) &&& 0xFF = 2 := by decide

/-- Every command returned by `parseLoop` carries a fully readable,
sanity-bounded header. -/
theorem parseLoop_mem (data : List Nat) : ∀ (n off done : Nat) (cmd : RldCmd),
    cmd ∈ parseLoop data n off done →
    cmd.offset + 4 ≤ data.length ∧
    readU32 data cmd.offset &&& 0xFFFF ≤ 0x1000 ∧
    (readU32 data cmd.offset >>> 16) &&& 0xFF ≤ 50 ∧
    (readU32 data cmd.offset >>> 24) &&& 0x0F ≤ 15 ∧
    cmd.ctype = readU32 data cmd.offset &&& 0xFFFF := by
  intro n
  induction n with
  | zero => intro off done cmd h; simp [parseLoop] at h
  | succ n ih =>
    intro off done cmd h
    rw [parseLoop] at h
    by_cases h1 : off + 4 > data.length
    · rw [if_pos h1] at h; simp at h
    · rw [if_neg h1] at h
      by_cases h2 : readU32 data off &&& 0xFFFF > 0x1000 ∨
          (readU32 data off >>> 16) &&& 0xFF > 50 ∨
          (readU32 data off >>> 24) &&& 0x0F > 15
      · rw [if_pos h2] at h; simp at h
      · rw [if_neg h2] at h
        rw [not_or, not_or] at h2
        obtain ⟨hb1, hb2, hb3⟩ := h2
        by_cases h3 : done + 1 > 50000
        · rw [if_pos h3] at h
          rw [List.mem_singleton] at h
          subst h
          exact ⟨by simp; omega, by simp; omega, by simp; omega, by simp; omega, by simp⟩
        · rw [if_neg h3] at h
          rcases List.mem_cons.mp h with rfl | h
          · exact ⟨by simp; omega, by simp; omega, by simp; omega, by simp; omega, by simp⟩
          · exact ih _ _ _ h

/-- C9 amended: `parse_rld` stops iterating at the first command header that
is unreadable (fewer than 4 bytes left) or violates a sanity bound
(`type > 0x1000`, `dword_count > 50`, `string_count_low > 15`), and at input
exhaustion — every returned command has a fully read header within bounds —
but a command whose header was read is always included: whenever the header
at the cursor is readable and within the sanity bounds, the loop emits that
command as the next element of its output (in both branches of the 50000
cap), with params and strings being exactly what the guarded readers could
recover; and the parameter reader returns the declared word count capped by
the words actually available, so unreadable parameter words are simply
omitted rather than causing the command to be discarded. -/
theorem parse_rld_abort_behaviour (data : List Nat) :
    (∀ cmd ∈ parse_rld data,
      cmd.offset + 4 ≤ data.length ∧
      readU32 data cmd.offset &&& 0xFFFF ≤ 0x1000 ∧
      (readU32 data cmd.offset >>> 16) &&& 0xFF ≤ 50 ∧
      (readU32 data cmd.offset >>> 24) &&& 0x0F ≤ 15 ∧
      cmd.ctype = readU32 data cmd.offset &&& 0xFFFF) ∧
    (∀ n off done,
      (off + 4 > data.length ∨ readU32 data off &&& 0xFFFF > 0x1000 ∨
        (readU32 data off >>> 16) &&& 0xFF > 50 ∨
        (readU32 data off >>> 24) &&& 0x0F > 15) →
      parseLoop data n off done = []) ∧
    (∀ n off done,
      off + 4 ≤ data.length →
      readU32 data off &&& 0xFFFF ≤ 0x1000 →
      (readU32 data off >>> 16) &&& 0xFF ≤ 50 →
      (readU32 data off >>> 24) &&& 0x0F ≤ 15 →
      ∃ rest, parseLoop data (n + 1) off done =
        ⟨off, readU32 data off &&& 0xFFFF,
          (readParams data (off + 4) ((readU32 data off >>> 16) &&& 0xFF)).1,
          (readStrings data
            (readParams data (off + 4) ((readU32 data off >>> 16) &&& 0xFF)).2
            ((readU32 data off >>> 24) &&& 0x0F)).1⟩ :: rest) ∧
    (∀ off n, ((readParams data off n).1).length =
      min n ((data.length - off) / 4)) := by
  refine ⟨?_, ?_, ?_, ?_⟩
  · intro cmd hmem
    rw [parse_rld] at hmem
    split at hmem
    · simp at hmem
    · simp only [] at hmem
      split at hmem
      · simp at hmem
      · exact parseLoop_mem data _ _ _ cmd hmem
  · intro n off done h
    match n with
    | 0 => rfl
    | n + 1 =>
      rw [parseLoop]
      rcases Nat.lt_or_ge data.length (off + 4) with hlt | hge
      · rw [if_pos (by omega)]
      · rw [if_neg (by omega), if_pos (by omega)]
  · intro n off done h1 h2 h3 h4
    rw [parseLoop]
    rw [if_neg (by omega), if_neg (by omega)]
    by_cases h5 : done + 1 > 50000
    · rw [if_pos h5]
      exact ⟨[], rfl⟩
    · rw [if_neg h5]
      exact ⟨_, rfl⟩
  · intro off n
    induction n generalizing off with
    | zero => simp [readParams]
    | succ n ih =>
      by_cases h : off + 4 ≤ data.length
      · rw [readParams, if_pos h]
        show (readU32 data off :: (readParams data (off + 4) n).1).length = _
        rw [List.length_cons, ih (off + 4)]
        omega
      · rw [readParams, if_neg h]
        show ([] : List Nat).length = _
        rw [List.length_nil]
        omega

theorem parse_rld_abort_behaviour_witness :
    ((⟨16, 1, [], []⟩ : RldCmd).offset + 4 ≤ c9Data.length ∧
     readU32 c9Data (⟨16, 1, [], []⟩ : RldCmd).offset &&& 0xFFFF ≤ 0x1000 ∧
     (readU32 c9Data (⟨16, 1, [], []⟩ : RldCmd).offset >>> 16) &&& 0xFF ≤ 50 ∧
     (readU32 c9Data (⟨16, 1, [], []⟩ : RldCmd).offset >>> 24) &&& 0x0F ≤ 15 ∧
     (⟨16, 1, [], []⟩ : RldCmd).ctype = readU32 c9Data (⟨16, 1, [], []⟩ : RldCmd).offset &&& 0xFFFF) ∧
    (∃ rest, parseLoop c9Data (0 + 1) 16 0 =
      ⟨16, readU32 c9Data 16 &&& 0xFFFF,
        (readParams c9Data (16 + 4) ((readU32 c9Data 16 >>> 16) &&& 0xFF)).1,
        (readStrings c9Data
          (readParams c9Data (16 + 4) ((readU32 c9Data 16 >>> 16) &&& 0xFF)).2
          ((readU32 c9Data 16 >>> 24) &&& 0x0F)).1⟩ :: rest) :=
  ⟨(parse_rld_abort_behaviour c9Data).1 ⟨16, 1, [], []⟩ (by decide),
   (parse_rld_abort_behaviour c9Data).2.2.1 0 16 0 (by decide) (by decide)
     (by decide) (by decide)⟩

/-! ### Claim C6: the MESSAGE extraction rule. -/

/-- C6: for every command of type `0x1C` with at least one string, the
emitted entry's text is the last string; its speaker is `strings[0]` exactly
when that string is non-empty, not `"*"`, and at least two strings are
present, else the character table's entry for `params[0]` when
`params[0] ≥ 3` and registered, else null; and an entry is emitted iff the
text passes the translatable filter. -/
theorem message_extraction_rule (table : Nat → Option String) (cmd : MsgCommand)
    (ht : cmd.ctype = 0x1C) (hs : cmd.strings ≠ []) :
    extract_translatable_message table cmd =
      (if is_translatable_text (cmd.strings.getLastD "") then
        some ⟨if 2 ≤ cmd.strings.length ∧ cmd.strings.headD "" ≠ "" ∧
              cmd.strings.headD "" ≠ "*"
            then some (cmd.strings.headD "")
            else if 3 ≤ cmd.params.headD 0 then table (cmd.params.headD 0) else none,
          cmd.strings.getLastD ""⟩
       else none) := by
  rw [extract_translatable_message, if_pos ht,
    if_neg (by simp [List.isEmpty_iff]; exact hs)]
  simp only []
  by_cases htr : is_translatable_text (cmd.strings.getLastD "") = true
  · have hne : cmd.strings.getLastD "" ≠ "" := by
      intro he
      rw [he] at htr
      simp [is_translatable_text] at htr
    rw [if_pos ⟨hne, htr⟩, if_pos htr]
    by_cases hinl : 2 ≤ cmd.strings.length ∧ cmd.strings.headD "" ≠ "" ∧
        cmd.strings.headD "" ≠ "*"
    · rw [if_pos hinl, if_pos hinl]
    · rw [if_neg hinl, if_neg hinl]
  · rw [if_neg (fun hc => htr hc.2), if_neg htr]

theorem message_extraction_rule_witness :
    extract_translatable_message (fun _ => none) ⟨0x1C, [5], ["鈴木", "こんにちは"]⟩ =
      some ⟨some "鈴木", "こんにちは"⟩ := by
  rw [message_extraction_rule (fun _ => none) ⟨0x1C, [5], ["鈴木", "こんにちは"]⟩ rfl
    (by decide)]
  decide
